import Mathlib

/-!
# Drum synthesiser core (`drums/drum_synth.cc`)

A shallow embedding of the three-voice drum synthesiser: the patch store, the
preset table, the control operations and the block render loop.

Machine integers are natural numbers or integers with the conversion to the
C type written out (`u8`, `u16`, `u32`, `s8`, `s16`).  Accesses outside the
three instrument slots or outside the fifteen presets are undefined in the
source; the operations that index with a caller-supplied value therefore
return an `Option`.
-/

namespace Drums

/-! ## Machine integer conversions -/

/-- Conversion to `uint8_t`. -/
def u8 (x : Nat) : Nat := x % 256

/-- Conversion to `uint16_t`. -/
def u16 (x : Nat) : Nat := x % 65536

/-- Conversion to `uint32_t`. -/
def u32 (x : Nat) : Nat := x % 4294967296

/-- Conversion to `int8_t` (two's complement). -/
def s8 (x : Int) : Int := (x + 128) % 256 - 128

/-- Conversion to `int16_t` (two's complement). -/
def s16 (x : Int) : Int := (x + 32768) % 65536 - 32768

/-! ## Helpers of `avrlib/op.h` -/

/-- Modelled from the spec: `U8U8MulShift8` of avrlib/op.h, the unsigned 8x8
multiply with the upper byte kept. -/
def U8U8MulShift8 (a b : Nat) : Nat := u8 ((u8 a * u8 b) / 256)

/-- Modelled from the spec: `U8U8Mul` of avrlib/op.h, the unsigned 8x8 multiply
with a 16-bit result. -/
def U8U8Mul (a b : Nat) : Nat := u16 (u8 a * u8 b)

/-- Modelled from the spec: `S8U8MulShift8` of avrlib/op.h, the signed x unsigned
multiply with shift; the arguments are converted to `int8_t` and `uint8_t`,
the result is an `int8_t`. -/
def S8U8MulShift8 (a : Int) (b : Nat) : Int := s8 ((s8 a * (u8 b : Int)) / 256)

/-- Modelled from the spec: `U8Mix` of avrlib/op.h, the byte mix: a weighted mix
of the bytes `a` and `b` by the blend factor, where blend factor 0 selects `a`
fully. -/
def U8Mix (a b balance : Nat) : Nat :=
  u8 ((u8 a * (256 - u8 balance) + u8 b * u8 balance) / 256)

/-- Modelled from the spec: `U16ShiftRight4` of avrlib/op.h. -/
def U16ShiftRight4 (x : Nat) : Nat := u16 x / 16

/-! ## Data model -/

/-- Modelled from the spec: the voice-type selector values of drum_synth.h. -/
def SYNTH_BD : Nat := 0

/-- Modelled from the spec: the voice-type selector values of drum_synth.h. -/
def SYNTH_SD : Nat := 1

/-- Modelled from the spec: the voice-type selector values of drum_synth.h. -/
def SYNTH_HH : Nat := 2

/-- Modelled from the spec: `kNumDrumInstruments` of drum_synth.h (exactly 3
slots). -/
def kNumDrumInstruments : Nat := 3

/-- Block size of the render loop. -/
def kAudioBlockSize : Nat := 32

/-- Modelled from the spec: `DrumPatch` of drum_synth.h, six 8-bit fields in a
fixed contiguous byte layout; `crunchiness` and `pitch_mod` share one byte. -/
structure DrumPatch where
  synth : Nat
  pitch : Nat
  pitch_decay : Nat
  amp_decay : Nat
  level : Nat
  crunchiness : Nat
deriving DecidableEq, Repr

/-- The `pitch_mod` view of the shared modulation byte. -/
def DrumPatch.pitch_mod (p : DrumPatch) : Nat := p.crunchiness

/-- The six bytes of a patch, in layout order. -/
def DrumPatch.bytes (p : DrumPatch) : List Nat :=
  [p.synth, p.pitch, p.pitch_decay, p.amp_decay, p.level, p.crunchiness]

/-- Store through a `uint8_t*` that points at the first byte of the patch:
`address[k] = v`. -/
def DrumPatch.setByte (p : DrumPatch) (k v : Nat) : DrumPatch :=
  match k with
  | 0 => { p with synth := u8 v }
  | 1 => { p with pitch := u8 v }
  | 2 => { p with pitch_decay := u8 v }
  | 3 => { p with amp_decay := u8 v }
  | 4 => { p with level := u8 v }
  | 5 => { p with crunchiness := u8 v }
  | _ => p

/-- Modelled from the spec: `DrumState` of drum_synth.h. -/
structure DrumState where
  phase : Nat
  phase_increment : Nat
  pitch_env_phase : Nat
  pitch_env_increment : Nat
  amp_env_phase : Nat
  amp_env_increment : Nat
  level : Nat
  amp_level : Nat
  amp_level_noise : Nat
deriving DecidableEq, Repr

/-- The all-zero voice state left by `memset`. -/
def DrumState.zero : DrumState := ⟨0, 0, 0, 0, 0, 0, 0, 0, 0⟩

/-- An array of `kNumDrumInstruments` elements. -/
structure Slots (α : Type) where
  s0 : α
  s1 : α
  s2 : α
deriving DecidableEq, Repr

/-- Read of element `i`; `none` outside the array. -/
def Slots.get? {α : Type} (x : Slots α) (i : Nat) : Option α :=
  match i with
  | 0 => some x.s0
  | 1 => some x.s1
  | 2 => some x.s2
  | _ => none

/-- Write of element `i`; `none` outside the array. -/
def Slots.set? {α : Type} (x : Slots α) (i : Nat) (v : α) : Option (Slots α) :=
  match i with
  | 0 => some { x with s0 := v }
  | 1 => some { x with s1 := v }
  | 2 => some { x with s2 := v }
  | _ => none

/-- Modelled from the spec: the ring buffer of avrlib, at its interface only: the
samples pushed so far (oldest first) and the free capacity, which drops by one
with each pushed sample. -/
structure RingBuffer where
  pushed : List Nat
  free : Nat
deriving DecidableEq, Repr

/-- Free-slot count. -/
def RingBuffer.writable (b : RingBuffer) : Nat := b.free

/-- Push of one `uint8_t` sample. -/
def RingBuffer.Overwrite (b : RingBuffer) (v : Nat) : RingBuffer :=
  { pushed := b.pushed ++ [u8 v], free := b.free - 1 }

/-- The static data of the synthesiser. -/
structure DrumSynth where
  patch_ : Slots DrumPatch
  state_ : Slots DrumState
  sample_rate_ : Nat
  sample_counter_ : Nat
  sample_ : Nat
  last_event_time_ : Nat
  CFBuffer : RingBuffer
deriving DecidableEq, Repr

/-- The lookup tables of resources.h and the table interpolation helpers of
dsp_utils.h, which are not part of the translated file: they are parameters of
the embedding.  A table maps an element index to the stored value. -/
structure Resources where
  wav_res_sine : Nat → Nat
  wav_res_hh : Nat → Nat
  wav_res_drm_envelope : Nat → Nat
  lut_res_drm_env_increments : Nat → Nat
  lut_res_drm_phase_increments : Nat → Nat
  InterpolateSample : (Nat → Nat) → Nat → Nat
  InterpolateIncreasing : (Nat → Nat) → Nat → Nat

/-- Read of one byte of a table. -/
def pgm_read_byte (table : Nat → Nat) (i : Nat) : Nat := u8 (table i)

/-! ## Presets -/

def preset_bd_1 : List Nat := [SYNTH_BD, 60, 18, 104, 120, 0]
def preset_bd_2 : List Nat := [SYNTH_BD, 56, 60, 120, 150, 0]
def preset_bd_3 : List Nat := [SYNTH_BD, 60, 42, 130, 180, 14]
def preset_bd_4 : List Nat := [SYNTH_BD, 72, 20, 66, 224, 0]
def preset_bd_5 : List Nat := [SYNTH_BD, 42, 52, 106, 160, 60]

def preset_sd_1 : List Nat := [SYNTH_SD, 108, 18, 16, 72, 64]
def preset_sd_2 : List Nat := [SYNTH_SD, 108, 36, 32, 96, 140]
def preset_sd_3 : List Nat := [SYNTH_SD, 108, 36, 50, 90, 180]
def preset_sd_4 : List Nat := [SYNTH_SD, 116, 36, 32, 80, 150]
def preset_sd_5 : List Nat := [SYNTH_SD, 124, 40, 190, 90, 40]

def preset_hh_1 : List Nat := [SYNTH_HH, 124, 0, 0, 80, 0]
def preset_hh_2 : List Nat := [SYNTH_HH, 150, 0, 0, 80, 0]
def preset_hh_3 : List Nat := [SYNTH_HH, 136, 0, 0, 110, 0]
def preset_hh_4 : List Nat := [SYNTH_HH, 148, 0, 0, 90, 0]
def preset_hh_5 : List Nat := [SYNTH_HH, 154, 0, 0, 45, 0]

/-- The preset table. -/
def drum_presets : List (List Nat) :=
  [preset_bd_1, preset_bd_2, preset_bd_3, preset_bd_4, preset_bd_5,
   preset_sd_1, preset_sd_2, preset_sd_3, preset_sd_4, preset_sd_5,
   preset_hh_1, preset_hh_2, preset_hh_3, preset_hh_4, preset_hh_5]

/-- Read of byte `i` of a preset: `pgm_read_byte(a + i)`. -/
def presetByte (a : List Nat) (i : Nat) : Nat := u8 (a.getD i 0)

/-! ## Patch management -/

/-- The copy loop of `DrumSynth::LoadPatch`:
`for (i = 0; i < 6; ++i) address[i] = pgm_read_byte(a + i)`. -/
def copyPreset (a : List Nat) (p : DrumPatch) : DrumPatch :=
  (List.range 6).foldl (fun q i => q.setByte i (presetByte a i)) p

/-- The function `DrumSynth::LoadPatch`. -/
def DrumSynth.LoadPatch (instrument patch : Nat) (s : DrumSynth) : Option DrumSynth := do
  let p ← s.patch_.get? instrument
  let p := { p with level := 255 }
  let a ← drum_presets[patch]?
  let p := copyPreset a p
  let patches ← s.patch_.set? instrument p
  pure { s with patch_ := patches }

/-- The mix loop of `DrumSynth::MorphPatch`:
`for (i = 0; i < 6; ++i) address[i] = U8Mix(pgm_read_byte(a + i), pgm_read_byte(b + i), balance)`. -/
def mixPresets (a b : List Nat) (balance : Nat) (p : DrumPatch) : DrumPatch :=
  (List.range 6).foldl
    (fun q i => q.setByte i (U8Mix (presetByte a i) (presetByte b i) balance)) p

/-- The index of the first of the two presets `DrumSynth::MorphPatch` reads:
`uint8_t offset = instrument * 5 + (value >> 6)`. -/
def morphOffset (instrument value : Nat) : Nat := u8 (instrument * 5 + u8 value / 64)

/-- The blend factor of `DrumSynth::MorphPatch`: `uint8_t balance = value << 2`. -/
def morphBalance (value : Nat) : Nat := u8 (u8 value * 4)

/-- The function `DrumSynth::MorphPatch`. -/
def DrumSynth.MorphPatch (instrument value : Nat) (s : DrumSynth) : Option DrumSynth := do
  let p ← s.patch_.get? instrument
  let synth := p.synth
  let p := { p with level := 255 }
  let offset := morphOffset instrument value
  let balance := morphBalance value
  let a ← drum_presets[offset]?
  let b ← drum_presets[offset + 1]?
  let p := mixPresets a b balance p
  let p := { p with synth := synth }
  let patches ← s.patch_.set? instrument p
  pure { s with patch_ := patches }

/-- The controller map. -/
def drums_cc_map : List Nat :=
  [0, 1, 2, 3, 4, 5,
   6, 7, 8, 9, 10, 11,
   12, 15, 17]

/-- The patch array seen as one block of bytes. -/
def patchBlock (x : Slots DrumPatch) : List Nat :=
  x.s0.bytes ++ x.s1.bytes ++ x.s2.bytes

/-- Store of one byte into the patch array seen as a block of bytes:
`data[address] = v`; `none` outside the array. -/
def Slots.setPatchByte (x : Slots DrumPatch) (address v : Nat) : Option (Slots DrumPatch) := do
  let p ← x.get? (address / 6)
  x.set? (address / 6) (p.setByte (address % 6) v)

/-- The function `DrumSynth::SetParameterCc`. -/
def DrumSynth.SetParameterCc (cc value : Nat) (s : DrumSynth) : Option DrumSynth :=
  if cc < 16 ∨ cc > 30 then
    some s
  else do
    let address := u8 (drums_cc_map.getD (cc - 16) 0)
    let patches ← s.patch_.setPatchByte address (u8 (u8 value * 2))
    pure { s with patch_ := patches }

/-- The function `DrumSynth::SetBandwidth`. -/
def DrumSynth.SetBandwidth (bandwidth : Nat) (s : DrumSynth) : DrumSynth :=
  let bandwidth := 255 - u8 bandwidth
  { s with sample_rate_ := bandwidth / 8 }

/-- The function `DrumSynth::SetBalance`. -/
def DrumSynth.SetBalance (mix : Nat) (s : DrumSynth) : DrumSynth :=
  let mix := u8 mix
  let p := s.patch_
  let p :=
    if mix < 128 then
      { p with s0 := { p.s0 with level := 255 }, s1 := { p.s1 with level := u8 (mix * 2) } }
    else
      { p with s0 := { p.s0 with level := 255 - u8 ((mix - 128) * 2) },
               s1 := { p.s1 with level := 255 } }
  let p := { p with s2 := { p.s2 with level := p.s1.level / 2 } }
  { s with patch_ := p }

/-- The function `DrumSynth::Trigger`; `now` is the value returned by `milliseconds()`. -/
def DrumSynth.Trigger (E : Resources) (now instrument level : Nat) (s : DrumSynth) :
    Option DrumSynth := do
  let s := { s with last_event_time_ := u32 now }
  let st ← s.state_.get? instrument
  let p ← s.patch_.get? instrument
  let st := { st with phase := 0 }
  let st := { st with pitch_env_phase := 0 }
  let st := { st with amp_env_phase := 0 }
  let st := { st with pitch_env_increment := u16 (E.lut_res_drm_env_increments p.pitch_decay) }
  let st := { st with amp_env_increment := u16 (E.lut_res_drm_env_increments p.amp_decay) }
  let st := { st with level := U8U8MulShift8 level p.level }
  let states ← s.state_.set? instrument st
  pure { s with state_ := states }

/-! ## Modulation step -/

/-- One pass of the loop body of `DrumSynth::UpdateModulations` for instrument
`i`; `rnd` is the byte returned by `Random::GetByte()`, which is drawn for
instrument 0 only. -/
def updateVoice (E : Resources) (i rnd : Nat) (p : DrumPatch) (st : DrumState) : DrumState :=
  -- Step amp envelope.
  let st := { st with amp_env_phase := u16 (st.amp_env_phase + st.amp_env_increment) }
  let st :=
    if st.amp_env_phase < st.amp_env_increment then
      { st with amp_env_phase := 0xffff, amp_env_increment := 0 }
    else st
  let env := u8 (E.InterpolateSample E.wav_res_drm_envelope st.amp_env_phase)
  let st := { st with amp_level := U8U8MulShift8 st.level env }
  -- Step pitch envelope.
  let st := { st with pitch_env_phase := u16 (st.pitch_env_phase + st.pitch_env_increment) }
  let st :=
    if st.pitch_env_phase < st.pitch_env_increment then
      { st with pitch_env_phase := 0xffff, pitch_env_increment := 0 }
    else st
  -- Compute pitch
  let pitch := u16 (u16 p.pitch * 256)
  let pitch := if i = 0 then u16 (pitch + U8U8Mul rnd p.crunchiness) else pitch
  let env := u8 (E.InterpolateSample E.wav_res_drm_envelope st.pitch_env_phase)
  let pitch := u16 (pitch + U8U8Mul p.pitch_mod env)
  let increment := u16 (E.InterpolateIncreasing E.lut_res_drm_phase_increments pitch)
  let st := { st with phase_increment := increment }
  if p.synth = SYNTH_SD then
    let st := { st with amp_level_noise := U8U8MulShift8 st.amp_level p.crunchiness }
    { st with amp_level := U8U8MulShift8 st.amp_level (255 - u8 p.crunchiness) }
  else if p.synth = SYNTH_HH then
    { st with phase_increment := st.phase_increment / 64 }
  else
    st

/-- The function `DrumSynth::UpdateModulations`; `rnd` is the byte drawn from the random
source during the call. -/
def DrumSynth.UpdateModulations (E : Resources) (rnd : Nat) (s : DrumSynth) : DrumSynth :=
  { s with state_ :=
      { s0 := updateVoice E 0 rnd s.patch_.s0 s.state_.s0,
        s1 := updateVoice E 1 rnd s.patch_.s1 s.state_.s1,
        s2 := updateVoice E 2 rnd s.patch_.s2 s.state_.s2 } }

/-! ## Render loop -/

/-- The two 16-bit accumulators of one sample. -/
structure Acc where
  mix : Int
  cf : Int
deriving DecidableEq, Repr

/-- One pass of the loop over the instruments inside `DrumSynth::Render`: the
phase of the voice is advanced and its contribution is added to the two
`int16_t` accumulators. -/
def renderVoice (E : Resources) (noise : Nat) (p : DrumPatch) (st : DrumState) (acc : Acc) :
    DrumState × Acc :=
  let st := { st with phase := u16 (st.phase + st.phase_increment) }
  let phase := st.phase
  if p.synth = SYNTH_SD then
    let sd := s8 (pgm_read_byte E.wav_res_sine (phase / 256))
    let mix := s16 (acc.mix + S8U8MulShift8 sd st.amp_level)
    let mix := s16 (mix + S8U8MulShift8 noise st.amp_level_noise)
    let cf := s16 (acc.cf + st.amp_level)
    (st, ⟨mix, cf⟩)
  else if p.synth = SYNTH_HH then
    let hh := s8 (pgm_read_byte E.wav_res_hh (U16ShiftRight4 phase))
    let mix := s16 (acc.mix + S8U8MulShift8 hh st.amp_level)
    let cf := s16 (acc.cf + st.amp_level)
    (st, ⟨mix, cf⟩)
  else
    let bd := s8 (pgm_read_byte E.wav_res_sine (phase / 256))
    let bd_2 := s8 (pgm_read_byte E.wav_res_sine (phase / 256 + 1))
    let bd := s8 (bd + S8U8MulShift8 (bd_2 - bd) phase)
    let mix := s16 (acc.mix + S8U8MulShift8 bd st.amp_level)
    let cf := s16 (acc.cf + st.amp_level)
    (st, ⟨mix, cf⟩)

/-- The local variables of `DrumSynth::Render` that live across samples. -/
structure Locals where
  sample : Nat
  sample_counter : Nat
  noise : Nat
deriving DecidableEq, Repr

/-- Upper and lower clamp of an accumulator, as the two `if`s of the source. -/
def clamp255 (x : Int) : Int :=
  let x := if x > 255 then 255 else x
  if x < 0 then 0 else x

/-- What one sample tick leaves behind: the voice states, the locals, and the
two bytes handed to `CFBuffer.Overwrite` and `buffer.Overwrite`. -/
structure TickResult where
  state_ : Slots DrumState
  locals : Locals
  cf : Nat
  sample : Nat
deriving DecidableEq, Repr

/-- The loop over the instruments inside `DrumSynth::Render`,
`for (j = 0; j < kNumDrumInstruments; ++j)`, written out for the three slots. -/
def renderVoices (E : Resources) (noise : Nat) (patch_ : Slots DrumPatch)
    (state_ : Slots DrumState) (acc : Acc) : Slots DrumState × Acc :=
  let r0 := renderVoice E noise patch_.s0 state_.s0 acc
  let r1 := renderVoice E noise patch_.s1 state_.s1 r0.2
  let r2 := renderVoice E noise patch_.s2 state_.s2 r1.2
  (⟨r0.1, r1.1, r2.1⟩, r2.2)

/-- The body of the loop over the samples of a block in `DrumSynth::Render`. -/
def renderTick (E : Resources) (cutoff sample_rate_ : Nat) (patch_ : Slots DrumPatch)
    (state_ : Slots DrumState) (l : Locals) : TickResult :=
  let sample_counter := u8 (l.sample_counter + 1)
  let acc : Acc := ⟨s16 128, s16 (u8 cutoff)⟩
  let noise := u8 (l.noise * 73 + 1)
  let r := renderVoices E noise patch_ state_ acc
  let mix := r.2.mix
  let cf := r.2.cf
  let l1 : Locals :=
    if sample_counter > sample_rate_ then
      { sample := u8 (clamp255 mix).toNat, sample_counter := 0, noise := noise }
    else
      { sample := l.sample, sample_counter := sample_counter, noise := noise }
  let cf := clamp255 cf
  { state_ := r.1, locals := l1, cf := u8 cf.toNat, sample := l1.sample }

/-- The state threaded through the render loop. -/
structure RenderState where
  synth : DrumSynth
  buffer : RingBuffer
  sample : Nat
  sample_counter : Nat
deriving DecidableEq, Repr

/-- The loop over the samples of one block: `n` more samples. -/
def renderTicks (E : Resources) (cutoff : Nat) : Nat → Nat → RenderState → RenderState
  | 0, _, r => r
  | n + 1, noise, r =>
    let t := renderTick E cutoff r.synth.sample_rate_ r.synth.patch_ r.synth.state_
      ⟨r.sample, r.sample_counter, noise⟩
    renderTicks E cutoff n t.locals.noise
      { synth := { r.synth with state_ := t.state_, CFBuffer := r.synth.CFBuffer.Overwrite t.cf },
        buffer := r.buffer.Overwrite t.sample,
        sample := t.locals.sample,
        sample_counter := t.locals.sample_counter }

/-- The body of the `while` loop of `DrumSynth::Render`: one block.  `rnd` is the
byte `Random::GetByte()` returns inside `UpdateModulations`, `msb` the value of
`Random::state_msb()` read after it. -/
def renderBlock (E : Resources) (cutoff rnd msb : Nat) (r : RenderState) : RenderState :=
  let r := { r with synth := r.synth.UpdateModulations E rnd }
  renderTicks E cutoff kAudioBlockSize (u8 msb) r

/-- The `while (buffer.writable() >= kAudioBlockSize)` loop.  Every pass pushes
a block to `buffer`, so `fuel` passes are enough when `fuel` is at least the
free capacity on entry; `k` counts the blocks already rendered and indexes the
draws of the random source. -/
def renderLoop (E : Resources) (rng : Nat → Nat × Nat) (cutoff : Nat) :
    Nat → Nat → RenderState → RenderState
  | 0, _, r => r
  | fuel + 1, k, r =>
    if r.buffer.writable ≥ kAudioBlockSize then
      renderLoop E rng cutoff fuel (k + 1) (renderBlock E cutoff (rng k).1 (rng k).2 r)
    else
      r

/-- The function `DrumSynth::idle_time_ms`; `now` is the value returned by `milliseconds()`. -/
def DrumSynth.idle_time_ms (now : Nat) (s : DrumSynth) : Nat :=
  u32 (u32 now + 4294967296 - u32 s.last_event_time_)

/-- The function `DrumSynth::Render`.  `now` is the value of the millisecond clock, `rng k` the
pair of values the random source hands to block `k` of this call.  The result
is the static data and the caller's buffer after the call. -/
def DrumSynth.Render (E : Resources) (rng : Nat → Nat × Nat) (now cutoff : Nat)
    (buffer : RingBuffer) (_instruments : Nat) (s : DrumSynth) : DrumSynth × RingBuffer :=
  if s.idle_time_ms now > 300000 then
    (s, buffer.Overwrite 0)
  else
    let r := renderLoop E rng cutoff buffer.writable 0
      { synth := s, buffer := buffer, sample := s.sample_, sample_counter := s.sample_counter_ }
    ({ r.synth with sample_ := r.sample, sample_counter_ := r.sample_counter }, r.buffer)

/-- The role of a slot by its index, as the data model fixes it: 0 = bass drum,
1 = snare, 2 = hi-hat. -/
def slotSynth (i : Nat) : Nat :=
  match i with
  | 0 => SYNTH_BD
  | 1 => SYNTH_SD
  | _ => SYNTH_HH

/-- Consecutive calls of `DrumSynth::UpdateModulations` with no other call in
between; `rnds` lists the random byte drawn by each call. -/
def DrumSynth.updateRun (E : Resources) (rnds : List Nat) (s : DrumSynth) : DrumSynth :=
  rnds.foldl (fun x rnd => x.UpdateModulations E rnd) s

/-- The four envelope fields of a voice state hold 16-bit values. -/
def DrumState.envInRange (st : DrumState) : Prop :=
  st.amp_env_phase < 65536 ∧ st.amp_env_increment < 65536 ∧
  st.pitch_env_phase < 65536 ∧ st.pitch_env_increment < 65536

/-- The contribution of one voice to the audio mix of one sample, over unbounded
integers: what the voice adds to `mix` at the phase the sample advances it to. -/
def contribution (E : Resources) (noise : Nat) (p : DrumPatch) (st : DrumState) : Int :=
  let phase := u16 (st.phase + st.phase_increment)
  if p.synth = SYNTH_SD then
    S8U8MulShift8 (s8 (pgm_read_byte E.wav_res_sine (phase / 256))) st.amp_level
      + S8U8MulShift8 noise st.amp_level_noise
  else if p.synth = SYNTH_HH then
    S8U8MulShift8 (s8 (pgm_read_byte E.wav_res_hh (U16ShiftRight4 phase))) st.amp_level
  else
    let bd := s8 (pgm_read_byte E.wav_res_sine (phase / 256))
    let bd_2 := s8 (pgm_read_byte E.wav_res_sine (phase / 256 + 1))
    S8U8MulShift8 (s8 (bd + S8U8MulShift8 (bd_2 - bd) phase)) st.amp_level

/-- The audio mix of one sample over unbounded integers: the bias 128 plus the
contributions of the three voices. -/
def mixTotal (E : Resources) (noise : Nat) (patch_ : Slots DrumPatch)
    (state_ : Slots DrumState) : Int :=
  128 + contribution E noise patch_.s0 state_.s0 + contribution E noise patch_.s1 state_.s1
    + contribution E noise patch_.s2 state_.s2

/-- The cutoff bus of one sample over unbounded naturals: the cutoff plus the
three amplitude levels. -/
def cfTotal (cutoff : Nat) (state_ : Slots DrumState) : Nat :=
  cutoff + state_.s0.amp_level + state_.s1.amp_level + state_.s2.amp_level

/-- The derived fields of a voice state: `phase_increment`, `amp_level` and
`amp_level_noise`. -/
def DrumState.derived (st : DrumState) : Nat × Nat × Nat :=
  (st.phase_increment, st.amp_level, st.amp_level_noise)

/-- The derived fields of the three voices. -/
def derivedFields (x : Slots DrumState) : Slots (Nat × Nat × Nat) :=
  ⟨x.s0.derived, x.s1.derived, x.s2.derived⟩

/-- Exactly `n` passes of the body of the `while` loop of `DrumSynth::Render`,
the first of them with the draws `rng k` of the random source. -/
def renderBlocks (E : Resources) (rng : Nat → Nat × Nat) (cutoff : Nat) :
    Nat → Nat → RenderState → RenderState
  | 0, _, r => r
  | n + 1, k, r =>
    renderBlocks E rng cutoff n (k + 1) (renderBlock E cutoff (rng k).1 (rng k).2 r)

/-- The hold pattern of the decimation with divisor `d`: `out` lists the samples
pushed by consecutive ticks that start with the counter at `c` and the held
sample `prev`; a tick that does not bring the counter to a multiple of `d + 1`
pushes the sample pushed before it.  `c1` and `prev1` are the counter and the
held sample after the last tick. -/
def Held (d : Nat) : Nat → Nat → List Nat → Nat → Nat → Prop
  | c, prev, [], c1, prev1 => c1 = c ∧ prev1 = prev
  | c, prev, x :: xs, c1, prev1 =>
    ((c + 1) % (d + 1) ≠ 0 → x = prev) ∧ Held d ((c + 1) % (d + 1)) x xs c1 prev1

/-- The render-loop state `r` with the free capacity of the caller's buffer and
the two persisted fields `sample_` and `sample_counter_` replaced: the parts of
the state that the loop never reads. -/
def RenderState.reframe (r : RenderState) (free sample_ sample_counter_ : Nat) : RenderState :=
  { r with
    synth := { r.synth with sample_ := sample_, sample_counter_ := sample_counter_ },
    buffer := { r.buffer with free := free } }

/-! ## Patch store with the header left open

`LoadPatch`, `MorphPatch` and `Init` reach the patch array through a byte pointer
and a slot index.  What they leave in the member `level`, and whether a slot 3
exists, depends on declarations of drum_synth.h.  In this part the patch array
is raw bytes and those declarations are the parameter `Header`; the six-field
model above is its instance `Header.sixBytes`. -/

/-- The declarations of drum_synth.h that the patch operations depend on.  The
header is not part of the translated file, so they are parameters of this part
of the embedding: the number of instrument slots, the size of a patch in bytes,
and the offsets of the members `synth` and `level` inside a patch. -/
structure Header where
  kNumDrumInstruments : Nat
  size : Nat
  synth : Nat
  level : Nat
deriving DecidableEq, Repr

/-- The stores of the patch operations stay inside a patch: the six bytes from
the member `synth` on, and the member `level`. -/
def Header.ok (H : Header) : Prop := H.synth + 6 ≤ H.size ∧ H.level < H.size

/-- Store of one byte of the patch array seen as raw bytes, a map from the slot
and the offset inside the patch to the byte: byte `o` of patch `slot` becomes
`v`. -/
def storeByte (m : Nat → Nat → Nat) (slot o v : Nat) : Nat → Nat → Nat :=
  fun s x => if s = slot ∧ x = o then u8 v else m s x

/-- The function `DrumSynth::LoadPatch` over the raw bytes of the patch array, for
a header `H`; `none` when the instrument is not a slot, the preset is not in the
table, or a store would leave the patch. -/
def LoadPatchAt (H : Header) (instrument patch : Nat) (m : Nat → Nat → Nat) :
    Option (Nat → Nat → Nat) :=
  if instrument < H.kNumDrumInstruments ∧ H.synth + 6 ≤ H.size ∧ H.level < H.size then do
    let m := storeByte m instrument H.level 255
    let a ← drum_presets[patch]?
    pure ((List.range 6).foldl
      (fun q i => storeByte q instrument (H.synth + i) (presetByte a i)) m)
  else
    none

/-- The patch array as raw bytes and the voice states, for a header left open. -/
structure DrumStore where
  patch_ : Nat → Nat → Nat
  state_ : Nat → DrumState

/-- The `LoadPatch` calls of `DrumSynth::Init`, in order: instrument and preset. -/
def initLoads : List (Nat × Nat) := [(0, 0), (1, 8), (2, 14), (3, 12)]

/-- The function `DrumSynth::Init` for a header `H`: the `memset` of the
`kNumDrumInstruments` voice states, then the four `LoadPatch` calls. -/
def InitAt (H : Header) (x : DrumStore) : Option DrumStore := do
  let state_ := fun j => if j < H.kNumDrumInstruments then DrumState.zero else x.state_ j
  let patch_ ← initLoads.foldlM (fun m c => LoadPatchAt H c.1 c.2 m) x.patch_
  pure { patch_ := patch_, state_ := state_ }

/-- A header with seven one-byte members, `synth` first and `level` last, and
`n` slots. -/
def Header.sevenBytes (n : Nat) : Header := ⟨n, 7, 0, 6⟩

/-- The header of the six-byte patch of the data model above: `level` is byte 4. -/
def Header.sixBytes (n : Nat) : Header := ⟨n, 6, 0, 4⟩

/-- The patch array of the six-field model as raw bytes. -/
def patchMem (x : Slots DrumPatch) : Nat → Nat → Nat :=
  fun slot o => ((x.get? slot).map (fun q => q.bytes.getD o 0)).getD 0

/-! ## Concrete data for evaluation -/

/-- The static data before any call: static storage is zero-initialised. -/
def DrumSynth.zero : DrumSynth :=
  { patch_ := ⟨⟨0, 0, 0, 0, 0, 0⟩, ⟨0, 0, 0, 0, 0, 0⟩, ⟨0, 0, 0, 0, 0, 0⟩⟩,
    state_ := ⟨DrumState.zero, DrumState.zero, DrumState.zero⟩,
    sample_rate_ := 0, sample_counter_ := 0, sample_ := 0, last_event_time_ := 0,
    CFBuffer := ⟨[], 0⟩ }

/-- A small set of tables to evaluate the embedding on: a ramp as sine table, a
sawtooth as hi-hat table, a falling envelope, and nearest-entry lookups in place
of the interpolation helpers. -/
def Resources.ramp : Resources :=
  { wav_res_sine := fun i => i * 7 + 3,
    wav_res_hh := fun i => i * 13,
    wav_res_drm_envelope := fun i => 255 - i,
    lut_res_drm_env_increments := fun i => 1000 * i,
    lut_res_drm_phase_increments := fun i => i,
    InterpolateSample := fun t p => t (p / 256),
    InterpolateIncreasing := fun t p => t p }

/-- A state in the middle of playing: the three slots hold a bass-drum, a snare
and a hi-hat preset, every voice has been triggered, and the cutoff buffer is
empty. -/
def DrumSynth.playing : DrumSynth :=
  { patch_ := ⟨⟨0, 60, 18, 104, 120, 0⟩, ⟨1, 116, 36, 32, 80, 150⟩, ⟨2, 154, 0, 0, 45, 0⟩⟩,
    state_ := ⟨⟨1000, 300, 60000, 9000, 30000, 2000, 200, 150, 0⟩,
               ⟨40000, 7000, 65535, 0, 1200, 400, 180, 90, 60⟩,
               ⟨65000, 900, 0, 0, 65000, 1000, 255, 255, 0⟩⟩,
    sample_rate_ := 3, sample_counter_ := 1, sample_ := 128, last_event_time_ := 1000,
    CFBuffer := ⟨[], 64⟩ }

/-- A stream of draws of the random source to evaluate the render loop on: block
`k` gets the byte `k` and the state byte `3 * k`. -/
def sampleDraws (k : Nat) : Nat × Nat := (k, 3 * k)

/-! # Theorems -/

/-! ## Patch management: lemmas -/

theorem copyPreset_eq (a : List Nat) (p : DrumPatch) :
    copyPreset a p = ⟨u8 (presetByte a 0), u8 (presetByte a 1), u8 (presetByte a 2),
      u8 (presetByte a 3), u8 (presetByte a 4), u8 (presetByte a 5)⟩ := rfl

theorem mixPresets_eq (a b : List Nat) (t : Nat) (p : DrumPatch) :
    mixPresets a b t p =
      ⟨u8 (U8Mix (presetByte a 0) (presetByte b 0) t), u8 (U8Mix (presetByte a 1) (presetByte b 1) t),
       u8 (U8Mix (presetByte a 2) (presetByte b 2) t), u8 (U8Mix (presetByte a 3) (presetByte b 3) t),
       u8 (U8Mix (presetByte a 4) (presetByte b 4) t), u8 (U8Mix (presetByte a 5) (presetByte b 5) t)⟩ := rfl

theorem u8_of_lt {x : Nat} (h : x < 256) : u8 x = x := Nat.mod_eq_of_lt h

theorem u8_lt (x : Nat) : u8 x < 256 := Nat.mod_lt _ (by decide)

theorem u8_u8 (x : Nat) : u8 (u8 x) = u8 x := u8_of_lt (u8_lt x)

theorem Slots.get?_set?_ne {α : Type} (x y : Slots α) (i j : Nat) (v : α)
    (h : x.set? i v = some y) (hj : j ≠ i) : y.get? j = x.get? j := by
  unfold Slots.set? at h
  split at h <;> simp at h <;> subst h <;> unfold Slots.get? <;> split <;> simp_all

theorem Slots.get?_set?_eq {α : Type} (x y : Slots α) (i : Nat) (v : α)
    (h : x.set? i v = some y) : y.get? i = some v := by
  unfold Slots.set? at h
  split at h <;> simp at h <;> subst h <;> rfl

theorem Slots.get?_of_lt {α : Type} (x : Slots α) {i : Nat} (hi : i < 3) :
    ∃ v, x.get? i = some v := by
  interval_cases i <;> exact ⟨_, rfl⟩

theorem Slots.set?_of_lt {α : Type} (x : Slots α) {i : Nat} (hi : i < 3) (v : α) :
    ∃ y, x.set? i v = some y := by
  interval_cases i <;> exact ⟨_, rfl⟩

/-- Every preset has six bytes, none above 224. -/
theorem drum_presets_bytes : ∀ a ∈ drum_presets, a.length = 6 ∧ ∀ x ∈ a, x ≤ 224 := by
  decide

theorem drum_presets_get {p : Nat} (hp : p < 15) :
    ∃ a, drum_presets[p]? = some a ∧ a ∈ drum_presets := by
  have h : p < drum_presets.length := hp
  exact ⟨drum_presets[p], List.getElem?_eq_getElem h, List.getElem_mem h⟩

theorem copyPreset_bytes (a : List Nat) (p : DrumPatch) (hl : a.length = 6)
    (hb : ∀ x ∈ a, x ≤ 224) : (copyPreset a p).bytes = a := by
  match a, hl with
  | [a0, a1, a2, a3, a4, a5], _ =>
    simp only [List.mem_cons, List.mem_singleton, forall_eq_or_imp, forall_eq] at hb
    simp only [copyPreset_eq, DrumPatch.bytes, presetByte, List.getD, u8_u8]
    simp [u8, Nat.mod_eq_of_lt, show ∀ x, x ≤ 224 → x < 256 from fun x h => by omega, hb]

theorem LoadPatch_eq (s : DrumSynth) (i p : Nat) (hi : i < 3) (hp : p < 15) :
    ∃ q a patches, s.patch_.get? i = some q ∧ drum_presets[p]? = some a ∧ a ∈ drum_presets ∧
      s.patch_.set? i (copyPreset a { q with level := 255 }) = some patches ∧
      s.LoadPatch i p = some { s with patch_ := patches } := by
  obtain ⟨q, hq⟩ := s.patch_.get?_of_lt hi
  obtain ⟨a, ha, hmem⟩ := drum_presets_get hp
  obtain ⟨y, hy⟩ := s.patch_.set?_of_lt hi (copyPreset a { q with level := 255 })
  refine ⟨q, a, y, hq, ha, hmem, hy, ?_⟩
  simp [DrumSynth.LoadPatch, hq, ha, hy]

/-! ## MorphPatch -/

theorem morphOffset_eq {i v : Nat} (hi : i < 3) (hv : v < 256) :
    morphOffset i v = 5 * i + v / 64 := by
  unfold morphOffset u8
  have : v / 64 ≤ 3 := by omega
  omega

theorem morphBalance_eq (v : Nat) : morphBalance v = 4 * (v % 64) := by
  unfold morphBalance u8
  omega

theorem MorphPatch_eq (s : DrumSynth) (i v : Nat) (hi : i < 3) (hv : v < 256) :
    ∃ q a b patches, s.patch_.get? i = some q ∧
      drum_presets[5 * i + v / 64]? = some a ∧ a ∈ drum_presets ∧
      drum_presets[5 * i + v / 64 + 1]? = some b ∧ b ∈ drum_presets ∧
      s.patch_.set? i { mixPresets a b (morphBalance v) { q with level := 255 } with
        synth := q.synth } = some patches ∧
      s.MorphPatch i v = some { s with patch_ := patches } := by
  obtain ⟨q, hq⟩ := s.patch_.get?_of_lt hi
  have hk : v / 64 ≤ 3 := by omega
  obtain ⟨a, ha, hma⟩ := drum_presets_get (show 5 * i + v / 64 < 15 by omega)
  obtain ⟨b, hb, hmb⟩ := drum_presets_get (show 5 * i + v / 64 + 1 < 15 by omega)
  obtain ⟨y, hy⟩ := s.patch_.set?_of_lt hi
    { mixPresets a b (morphBalance v) { q with level := 255 } with synth := q.synth }
  refine ⟨q, a, b, y, hq, ha, hma, hb, hmb, hy, ?_⟩
  simp [DrumSynth.MorphPatch, hq, morphOffset_eq hi hv, ha, hb, hy]

/-- C5: for every instrument `i < 3`, every `value < 256` and every prior patch
content, `MorphPatch i value` succeeds, the synth byte of patch `i` after the
call equals its synth byte before the call, and the patches of the other
instruments are unchanged. -/
theorem MorphPatch_preserves_synth (s : DrumSynth) (i value : Nat) (hi : i < 3)
    (hv : value < 256) :
    ∃ s1 q q1, s.MorphPatch i value = some s1 ∧ s.patch_.get? i = some q ∧
      s1.patch_.get? i = some q1 ∧ q1.synth = q.synth ∧
      ∀ j, j ≠ i → s1.patch_.get? j = s.patch_.get? j := by
  obtain ⟨q, a, b, y, hq, _, _, _, _, hy, h⟩ := MorphPatch_eq s i value hi hv
  refine ⟨_, q, _, h, hq, Slots.get?_set?_eq _ _ _ _ hy, rfl, ?_⟩
  intro j hj
  exact Slots.get?_set?_ne _ _ _ j _ hy hj

/-- C5, at a concrete input: slot 1 of the zero state after `SetBalance 7`,
morphed with value 200. -/
theorem MorphPatch_preserves_synth_witness :
    ∃ s1 q q1, (DrumSynth.zero.SetBalance 7).MorphPatch 1 200 = some s1 ∧
      (DrumSynth.zero.SetBalance 7).patch_.get? 1 = some q ∧
      s1.patch_.get? 1 = some q1 ∧ q1.synth = q.synth ∧
      ∀ j, j ≠ 1 → s1.patch_.get? j = (DrumSynth.zero.SetBalance 7).patch_.get? j :=
  MorphPatch_preserves_synth (DrumSynth.zero.SetBalance 7) 1 200 (by decide) (by decide)

theorem getD_le_of_forall_le {a : List Nat} {M : Nat} (h : ∀ x ∈ a, x ≤ M) (k : Nat) :
    a.getD k 0 ≤ M := by
  induction a generalizing k with
  | nil => simp
  | cons x xs ih =>
    cases k with
    | zero => simpa using h x (by simp)
    | succ k =>
      simpa using ih (fun y hy => h y (by simp [hy])) k

theorem presetByte_eq {a : List Nat} (ha : a ∈ drum_presets) (k : Nat) :
    presetByte a k = a.getD k 0 ∧ a.getD k 0 ≤ 224 := by
  have h := getD_le_of_forall_le (drum_presets_bytes a ha).2 k
  exact ⟨u8_of_lt (by omega), h⟩

theorem U8Mix_le {a b M : Nat} (ha : a ≤ M) (hb : b ≤ M) (hM : M < 256) (t : Nat) :
    U8Mix a b t ≤ M := by
  have hd : (u8 a * (256 - u8 t) + u8 b * u8 t) / 256 ≤ M := by
    have ht := u8_lt t
    rw [u8_of_lt (show a < 256 by omega), u8_of_lt (show b < 256 by omega)]
    apply Nat.div_le_of_le_mul
    have h1 : a * (256 - u8 t) ≤ M * (256 - u8 t) := Nat.mul_le_mul_right _ ha
    have h2 : b * u8 t ≤ M * u8 t := Nat.mul_le_mul_right _ hb
    have h3 : M * (256 - u8 t) + M * u8 t = 256 * M := by
      rw [← Nat.mul_add, Nat.sub_add_cancel (le_of_lt ht), Nat.mul_comm]
    omega
  unfold U8Mix
  rw [u8_of_lt (by omega)]
  exact hd

theorem U8Mix_zero {a : Nat} (b : Nat) (ha : a < 256) : U8Mix a b 0 = a := by
  simp [U8Mix, u8, Nat.mod_eq_of_lt ha]

/-- C6: for every instrument `i < 3` and preset `p < 15`, `LoadPatch i p`
followed by `MorphPatch i 0` succeeds and leaves in patch `i` the pitch,
pitch-decay, amp-decay and crunchiness bytes of the preset at index `5 * i`; and
the byte mix with blend factor 0 returns its first argument for every byte. -/
theorem LoadPatch_MorphPatch_zero (s : DrumSynth) (i p : Nat) (hi : i < 3) (hp : p < 15) :
    (∃ s1 s2 q A, s.LoadPatch i p = some s1 ∧ s1.MorphPatch i 0 = some s2 ∧
      s2.patch_.get? i = some q ∧ drum_presets[5 * i]? = some A ∧
      q.pitch = A.getD 1 0 ∧ q.pitch_decay = A.getD 2 0 ∧ q.amp_decay = A.getD 3 0 ∧
      q.crunchiness = A.getD 5 0) ∧
    ∀ a b, a < 256 → U8Mix a b 0 = a := by
  refine ⟨?_, fun a b ha => U8Mix_zero b ha⟩
  obtain ⟨_, _, y1, _, _, _, _, h1⟩ := LoadPatch_eq s i p hi hp
  obtain ⟨q, a, b, y, _, ha, hma, _, _, hy, h⟩ :=
    MorphPatch_eq { s with patch_ := y1 } i 0 hi (by decide)
  have e : ∀ k, U8Mix (presetByte a k) (presetByte b k) (morphBalance 0) = a.getD k 0 := by
    intro k
    have hk := presetByte_eq hma k
    rw [hk.1]
    exact U8Mix_zero _ (by omega)
  have e2 : ∀ k, u8 (a.getD k 0) = a.getD k 0 := fun k =>
    u8_of_lt (by have := (presetByte_eq hma k).2; omega)
  refine ⟨_, _, _, a, h1, h, Slots.get?_set?_eq _ _ _ _ hy, by simpa using ha, ?_, ?_, ?_, ?_⟩ <;>
    simp only [mixPresets_eq, e, e2]

/-- C6, at a concrete input: preset 13 loaded into slot 2, then morphed with 0. -/
theorem LoadPatch_MorphPatch_zero_witness :
    (∃ s1 s2 q A, DrumSynth.zero.LoadPatch 2 13 = some s1 ∧ s1.MorphPatch 2 0 = some s2 ∧
      s2.patch_.get? 2 = some q ∧ drum_presets[5 * 2]? = some A ∧
      q.pitch = A.getD 1 0 ∧ q.pitch_decay = A.getD 2 0 ∧ q.amp_decay = A.getD 3 0 ∧
      q.crunchiness = A.getD 5 0) ∧
    ∀ a b, a < 256 → U8Mix a b 0 = a :=
  LoadPatch_MorphPatch_zero DrumSynth.zero 2 13 (by decide) (by decide)

theorem preset_synth_of_slot {i k : Nat} (hi : i < 3) (hk : k ≤ 4) :
    ∃ a, drum_presets[5 * i + k]? = some a ∧ presetByte a 0 = slotSynth i := by
  interval_cases i <;> interval_cases k <;> exact ⟨_, rfl, rfl⟩

/-- C8 as stated fails: after `LoadPatch 0 5` has given slot 0 a snare preset, the
two presets `MorphPatch 0 0` reads are bass-drum presets, whose synth byte
differs from the synth field of patch 0. -/
theorem MorphPatch_presets_not_of_patch_synth :
    ∃ s1 q a b, DrumSynth.zero.LoadPatch 0 5 = some s1 ∧ s1.patch_.get? 0 = some q ∧
      drum_presets[morphOffset 0 0]? = some a ∧ drum_presets[morphOffset 0 0 + 1]? = some b ∧
      q.synth = SYNTH_SD ∧ presetByte a 0 = SYNTH_BD ∧ presetByte b 0 = SYNTH_BD ∧
      presetByte a 0 ≠ q.synth ∧ presetByte b 0 ≠ q.synth ∧
      s1.MorphPatch 0 0 = some { s1 with patch_ := { s1.patch_ with
        s0 := { mixPresets a b (morphBalance 0) { q with level := 255 } with
          synth := q.synth } } } :=
  ⟨_, _, _, _, rfl, rfl, rfl, rfl, rfl, rfl, rfl, by decide, by decide, rfl⟩

/-- C8, amended: for every instrument `i < 3`, every `value < 256` and every prior
patch content, `MorphPatch i value` mixes the presets at the adjacent indices
`k` and `k + 1` of the preset table, `k = 5 * i + value / 64` being the offset
the code computes; both lie in the group of five presets of slot `i`, so their
synth byte is the voice type of the slot index (bass drum for 0, snare for 1,
hi-hat for 2), whatever the synth field of patch `i` holds. -/
theorem MorphPatch_presets_of_slot (s : DrumSynth) (i value : Nat) (hi : i < 3)
    (hv : value < 256) :
    ∃ q a b patches, morphOffset i value = 5 * i + value / 64 ∧
      5 * i ≤ 5 * i + value / 64 ∧ 5 * i + value / 64 + 1 ≤ 5 * i + 4 ∧
      s.patch_.get? i = some q ∧
      drum_presets[morphOffset i value]? = some a ∧
      drum_presets[morphOffset i value + 1]? = some b ∧
      presetByte a 0 = slotSynth i ∧ presetByte b 0 = slotSynth i ∧
      s.patch_.set? i { mixPresets a b (morphBalance value) { q with level := 255 } with
        synth := q.synth } = some patches ∧
      s.MorphPatch i value = some { s with patch_ := patches } := by
  obtain ⟨q, a, b, y, hq, ha, _, hb, _, hy, h⟩ := MorphPatch_eq s i value hi hv
  have hk : value / 64 ≤ 3 := by omega
  obtain ⟨a1, ha1, hs1⟩ := preset_synth_of_slot hi (show value / 64 ≤ 4 by omega)
  obtain ⟨b1, hb1, hs2⟩ := preset_synth_of_slot hi (show value / 64 + 1 ≤ 4 by omega)
  rw [ha] at ha1
  rw [← Nat.add_assoc, hb] at hb1
  cases Option.some.inj ha1
  cases Option.some.inj hb1
  rw [morphOffset_eq hi hv]
  exact ⟨q, a, b, y, rfl, by omega, by omega, hq, ha, hb, hs1, hs2, hy, h⟩

/-- C8 amended, at a concrete input: slot 1 of the zero state (synth field 0) is
morphed between the snare presets 8 and 9. -/
theorem MorphPatch_presets_of_slot_witness :
    ∃ q a b patches, morphOffset 1 200 = 5 * 1 + 200 / 64 ∧
      5 * 1 ≤ 5 * 1 + 200 / 64 ∧ 5 * 1 + 200 / 64 + 1 ≤ 5 * 1 + 4 ∧
      DrumSynth.zero.patch_.get? 1 = some q ∧
      drum_presets[morphOffset 1 200]? = some a ∧
      drum_presets[morphOffset 1 200 + 1]? = some b ∧
      presetByte a 0 = slotSynth 1 ∧ presetByte b 0 = slotSynth 1 ∧
      DrumSynth.zero.patch_.set? 1
        { mixPresets a b (morphBalance 200) { q with level := 255 } with
          synth := q.synth } = some patches ∧
      DrumSynth.zero.MorphPatch 1 200 = some { DrumSynth.zero with patch_ := patches } :=
  MorphPatch_presets_of_slot DrumSynth.zero 1 200 (by decide) (by decide)

/-! ## SetParameterCc -/

/-- C9: for every controller number with `cc < 16` or `cc > 30` and every value,
`SetParameterCc cc value` returns the static data unchanged: all patch bytes,
all voice state and the clock fields. -/
theorem SetParameterCc_unmapped (s : DrumSynth) (cc value : Nat) (h : cc < 16 ∨ cc > 30) :
    s.SetParameterCc cc value = some s := by
  simp [DrumSynth.SetParameterCc, h]

/-- C9, at a concrete input: controller 31. -/
theorem SetParameterCc_unmapped_witness :
    DrumSynth.zero.SetParameterCc 31 100 = some DrumSynth.zero :=
  SetParameterCc_unmapped DrumSynth.zero 31 100 (by decide)

theorem setPatchByte_block (x : Slots DrumPatch) {address : Nat} (h : address < 18) (v : Nat) :
    ∃ y, x.setPatchByte address v = some y ∧
      patchBlock y = (patchBlock x).set address (u8 v) := by
  interval_cases address <;> exact ⟨_, rfl, rfl⟩

theorem patchBlock_length (x : Slots DrumPatch) : (patchBlock x).length = 18 := rfl

/-- C10: for every `cc` in 16..30 and every value, `SetParameterCc cc value`
succeeds and changes the static data in the patch array only; seen as a block of
18 bytes, the patch array after the call is the block before the call with the
one byte at offset `drums_cc_map[cc - 16]`, which is below 18, set to
`(2 * value) % 256`; for `value ≤ 127` that byte is `2 * value`, at most 254. -/
theorem SetParameterCc_mapped (s : DrumSynth) (cc value : Nat) (h1 : 16 ≤ cc) (h2 : cc ≤ 30) :
    ∃ address patches, drums_cc_map[cc - 16]? = some address ∧ address < 18 ∧
      (patchBlock s.patch_).length = 18 ∧
      s.SetParameterCc cc value = some { s with patch_ := patches } ∧
      patchBlock patches = (patchBlock s.patch_).set address ((2 * value) % 256) ∧
      (value ≤ 127 → (2 * value) % 256 = 2 * value ∧ 2 * value ≤ 254) := by
  have hcc : ¬ (cc < 16 ∨ cc > 30) := by omega
  have hmap : ∃ address, drums_cc_map[cc - 16]? = some address ∧ address < 18 ∧
      u8 (drums_cc_map.getD (cc - 16) 0) = address := by
    interval_cases cc <;> exact ⟨_, rfl, by decide, rfl⟩
  obtain ⟨address, hget, hlt, hu⟩ := hmap
  obtain ⟨y, hy, hblock⟩ := setPatchByte_block s.patch_ hlt (u8 (u8 value * 2))
  have hval : u8 (u8 (u8 value * 2)) = (2 * value) % 256 := by
    unfold u8; omega
  refine ⟨address, y, hget, hlt, rfl, ?_, ?_, ?_⟩
  · unfold DrumSynth.SetParameterCc
    rw [if_neg hcc]
    simp only [hu, hy]
    rfl
  · rw [hblock, hval]
  · intro hv
    omega

/-- C10, at a concrete input: controller 29 with value 100 writes 200 at offset
15. -/
theorem SetParameterCc_mapped_witness :
    ∃ address patches, drums_cc_map[29 - 16]? = some address ∧ address < 18 ∧
      (patchBlock DrumSynth.zero.patch_).length = 18 ∧
      DrumSynth.zero.SetParameterCc 29 100 = some { DrumSynth.zero with patch_ := patches } ∧
      patchBlock patches = (patchBlock DrumSynth.zero.patch_).set address ((2 * 100) % 256) ∧
      (100 ≤ 127 → (2 * 100) % 256 = 2 * 100 ∧ 2 * 100 ≤ 254) :=
  SetParameterCc_mapped DrumSynth.zero 29 100 (by decide) (by decide)

/-! ## UpdateModulations: envelopes -/

theorem envelope_step {p d : Nat} (hp : p < 65536) (hd : d < 65536) :
    (if u16 (p + d) < d then 65535 else u16 (p + d)) = min (p + d) 65535 ∧
    (if u16 (p + d) < d then 0 else d) = (if p + d > 65535 then 0 else d) := by
  unfold u16
  constructor
  · rw [Nat.min_def]
    split_ifs <;> omega
  · split_ifs <;> omega

theorem updateVoice_amp (E : Resources) (i rnd : Nat) (p : DrumPatch) (st : DrumState) :
    (updateVoice E i rnd p st).amp_env_phase =
      (if u16 (st.amp_env_phase + st.amp_env_increment) < st.amp_env_increment then 65535
        else u16 (st.amp_env_phase + st.amp_env_increment)) ∧
    (updateVoice E i rnd p st).amp_env_increment =
      (if u16 (st.amp_env_phase + st.amp_env_increment) < st.amp_env_increment then 0
        else st.amp_env_increment) ∧
    (updateVoice E i rnd p st).pitch_env_phase =
      (if u16 (st.pitch_env_phase + st.pitch_env_increment) < st.pitch_env_increment then 65535
        else u16 (st.pitch_env_phase + st.pitch_env_increment)) ∧
    (updateVoice E i rnd p st).pitch_env_increment =
      (if u16 (st.pitch_env_phase + st.pitch_env_increment) < st.pitch_env_increment then 0
        else st.pitch_env_increment) := by
  unfold updateVoice
  simp only []
  split_ifs <;> simp_all

theorem updateVoice_env (E : Resources) (i rnd : Nat) (p : DrumPatch) (st : DrumState)
    (h : st.envInRange) :
    (updateVoice E i rnd p st).amp_env_phase =
      min (st.amp_env_phase + st.amp_env_increment) 65535 ∧
    (updateVoice E i rnd p st).amp_env_increment =
      (if st.amp_env_phase + st.amp_env_increment > 65535 then 0 else st.amp_env_increment) ∧
    (updateVoice E i rnd p st).pitch_env_phase =
      min (st.pitch_env_phase + st.pitch_env_increment) 65535 ∧
    (updateVoice E i rnd p st).pitch_env_increment =
      (if st.pitch_env_phase + st.pitch_env_increment > 65535 then 0
        else st.pitch_env_increment) := by
  obtain ⟨h1, h2, h3, h4⟩ := h
  obtain ⟨e1, e2, e3, e4⟩ := updateVoice_amp E i rnd p st
  have a := envelope_step h1 h2
  have b := envelope_step h3 h4
  exact ⟨e1.trans a.1, e2.trans a.2, e3.trans b.1, e4.trans b.2⟩

/-- What one modulation step guarantees of the envelopes of one voice. -/
theorem updateVoice_env_mono (E : Resources) (i rnd : Nat) (p : DrumPatch) (st : DrumState)
    (h : st.envInRange) :
    (updateVoice E i rnd p st).envInRange ∧
    st.amp_env_phase ≤ (updateVoice E i rnd p st).amp_env_phase ∧
    st.pitch_env_phase ≤ (updateVoice E i rnd p st).pitch_env_phase ∧
    (st.amp_env_increment = 0 → (updateVoice E i rnd p st).amp_env_phase = st.amp_env_phase ∧
      (updateVoice E i rnd p st).amp_env_increment = 0) ∧
    (st.pitch_env_increment = 0 →
      (updateVoice E i rnd p st).pitch_env_phase = st.pitch_env_phase ∧
      (updateVoice E i rnd p st).pitch_env_increment = 0) := by
  obtain ⟨e1, e2, e3, e4⟩ := updateVoice_env E i rnd p st h
  obtain ⟨h1, h2, h3, h4⟩ := h
  unfold DrumState.envInRange
  rw [e1, e2, e3, e4]
  refine ⟨⟨?_, ?_, ?_, ?_⟩, ?_, ?_, ?_, ?_⟩
  · omega
  · split_ifs <;> omega
  · omega
  · split_ifs <;> omega
  · omega
  · omega
  · intro h0
    rw [h0]
    simp
    omega
  · intro h0
    rw [h0]
    simp
    omega

theorem UpdateModulations_get? (E : Resources) (rnd : Nat) (s : DrumSynth) (i : Nat)
    (st1 : DrumState) (h : (s.UpdateModulations E rnd).state_.get? i = some st1) :
    ∃ st p, s.state_.get? i = some st ∧ s.patch_.get? i = some p ∧
      st1 = updateVoice E i rnd p st := by
  unfold DrumSynth.UpdateModulations at h
  unfold Slots.get? at h ⊢
  split at h
  · exact ⟨_, _, rfl, rfl, (Option.some.inj h).symm⟩
  · exact ⟨_, _, rfl, rfl, (Option.some.inj h).symm⟩
  · exact ⟨_, _, rfl, rfl, (Option.some.inj h).symm⟩
  · exact absurd h (by simp)

theorem UpdateModulations_patch (E : Resources) (rnd : Nat) (s : DrumSynth) :
    (s.UpdateModulations E rnd).patch_ = s.patch_ := rfl

theorem updateRun_env (E : Resources) (rnds : List Nat) :
    ∀ (s : DrumSynth) (i : Nat) (st stn : DrumState), s.state_.get? i = some st →
      (s.updateRun E rnds).state_.get? i = some stn → st.envInRange →
      stn.envInRange ∧ st.amp_env_phase ≤ stn.amp_env_phase ∧
      st.pitch_env_phase ≤ stn.pitch_env_phase ∧
      (st.amp_env_increment = 0 →
        stn.amp_env_phase = st.amp_env_phase ∧ stn.amp_env_increment = 0) ∧
      (st.pitch_env_increment = 0 →
        stn.pitch_env_phase = st.pitch_env_phase ∧ stn.pitch_env_increment = 0) := by
  induction rnds with
  | nil =>
    intro s i st stn h1 h2 hr
    have : (s.updateRun E []) = s := rfl
    rw [this, h1] at h2
    cases Option.some.inj h2
    exact ⟨hr, le_refl _, le_refl _, fun h => ⟨rfl, h⟩, fun h => ⟨rfl, h⟩⟩
  | cons rnd rest ih =>
    intro s i st stn h1 h2 hr
    have hrun : s.updateRun E (rnd :: rest) = (s.UpdateModulations E rnd).updateRun E rest := rfl
    rw [hrun] at h2
    have hlt : i < 3 := by
      unfold Slots.get? at h1
      split at h1 <;> first | omega | exact absurd h1 (by simp)
    obtain ⟨st1, hst1⟩ := (s.UpdateModulations E rnd).state_.get?_of_lt hlt
    obtain ⟨st0, p, hst0, _, hup⟩ := UpdateModulations_get? E rnd s i st1 hst1
    rw [h1] at hst0
    cases Option.some.inj hst0
    obtain ⟨hr1, m1, m2, f1, f2⟩ := updateVoice_env_mono E i rnd p st hr
    rw [← hup] at hr1 m1 m2 f1 f2
    obtain ⟨hrn, n1, n2, g1, g2⟩ := ih _ i st1 stn hst1 h2 hr1
    refine ⟨hrn, le_trans m1 n1, le_trans m2 n2, ?_, ?_⟩
    · intro h0
      obtain ⟨a, b⟩ := f1 h0
      obtain ⟨c, d⟩ := g1 b
      exact ⟨c.trans a, d⟩
    · intro h0
      obtain ⟨a, b⟩ := f2 h0
      obtain ⟨c, d⟩ := g2 b
      exact ⟨c.trans a, d⟩

/-- C2: for every instrument whose envelope fields hold 16-bit values, one
`UpdateModulations` call sets `amp_env_phase` to `min (p + d) 0xFFFF` and the
increment to 0 when `p + d > 0xFFFF` and leaves it unchanged otherwise, and
likewise for the pitch envelope; over any number of consecutive calls both
envelope phases are non-decreasing, and an envelope whose increment is 0 keeps
its phase and its zero increment. -/
theorem UpdateModulations_envelopes (E : Resources) (s : DrumSynth) (i : Nat) (st : DrumState)
    (hst : s.state_.get? i = some st) (hr : st.envInRange) :
    (∀ rnd, ∃ st1, (s.UpdateModulations E rnd).state_.get? i = some st1 ∧
      st1.amp_env_phase = min (st.amp_env_phase + st.amp_env_increment) 0xFFFF ∧
      st1.amp_env_increment =
        (if st.amp_env_phase + st.amp_env_increment > 0xFFFF then 0
          else st.amp_env_increment) ∧
      st1.pitch_env_phase = min (st.pitch_env_phase + st.pitch_env_increment) 0xFFFF ∧
      st1.pitch_env_increment =
        (if st.pitch_env_phase + st.pitch_env_increment > 0xFFFF then 0
          else st.pitch_env_increment)) ∧
    (∀ rnds, ∃ stn, (s.updateRun E rnds).state_.get? i = some stn ∧
      st.amp_env_phase ≤ stn.amp_env_phase ∧ st.pitch_env_phase ≤ stn.pitch_env_phase ∧
      stn.amp_env_phase ≤ 0xFFFF ∧ stn.pitch_env_phase ≤ 0xFFFF ∧
      (st.amp_env_increment = 0 →
        stn.amp_env_phase = st.amp_env_phase ∧ stn.amp_env_increment = 0) ∧
      (st.pitch_env_increment = 0 →
        stn.pitch_env_phase = st.pitch_env_phase ∧ stn.pitch_env_increment = 0)) := by
  have hlt : i < 3 := by
    unfold Slots.get? at hst
    split at hst <;> first | omega | exact absurd hst (by simp)
  constructor
  · intro rnd
    obtain ⟨st1, hst1⟩ := (s.UpdateModulations E rnd).state_.get?_of_lt hlt
    obtain ⟨st0, p, hst0, _, hup⟩ := UpdateModulations_get? E rnd s i st1 hst1
    rw [hst] at hst0
    cases Option.some.inj hst0
    refine ⟨st1, hst1, ?_⟩
    rw [hup]
    exact updateVoice_env E i rnd p st hr
  · intro rnds
    obtain ⟨stn, hstn⟩ := (s.updateRun E rnds).state_.get?_of_lt hlt
    obtain ⟨hrn, n1, n2, g1, g2⟩ := updateRun_env E rnds s i st stn hst hstn hr
    obtain ⟨r1, _, r3, _⟩ := hrn
    exact ⟨stn, hstn, n1, n2, by omega, by omega, g1, g2⟩

/-- C2, at a concrete input: voice 0 of the playing state, whose pitch envelope
overflows at the next step. -/
theorem UpdateModulations_envelopes_witness :
    DrumSynth.playing.state_.get? 0 = some DrumSynth.playing.state_.s0 ∧
    DrumSynth.playing.state_.s0.envInRange ∧
    (∃ st1, (DrumSynth.playing.UpdateModulations Resources.ramp 5).state_.get? 0 = some st1 ∧
      st1.amp_env_phase = 32000 ∧ st1.amp_env_increment = 2000 ∧
      st1.pitch_env_phase = 65535 ∧ st1.pitch_env_increment = 0) ∧
    (∃ stn, (DrumSynth.playing.updateRun Resources.ramp [5, 6, 7]).state_.get? 0 = some stn ∧
      30000 ≤ stn.amp_env_phase ∧ 60000 ≤ stn.pitch_env_phase) :=
  have hr : DrumSynth.playing.state_.s0.envInRange :=
    ⟨by decide, by decide, by decide, by decide⟩
  have h := UpdateModulations_envelopes Resources.ramp DrumSynth.playing 0
    DrumSynth.playing.state_.s0 rfl hr
  ⟨rfl, hr,
    (h.1 5).imp fun _ h1 => ⟨h1.1, h1.2.1, h1.2.2.1, h1.2.2.2.1, h1.2.2.2.2⟩,
    (h.2 [5, 6, 7]).imp fun _ h2 => ⟨h2.1, h2.2.1, h2.2.2.1⟩⟩

/-! ## Render: idle policy -/

/-- C3: when the idle time, the current time minus `last_event_time_` as an
unsigned 32-bit value, is greater than 300000, `Render` pushes the one sample 0
to the caller's buffer and returns the static data unchanged: voice states,
patches, `sample_`, `sample_counter_` and the cutoff buffer; when the idle time
is at most 300000, `Render` is the block loop, which pushes nothing when fewer
than 32 slots are free. -/
theorem Render_idle (E : Resources) (rng : Nat → Nat × Nat) (now cutoff : Nat)
    (buffer : RingBuffer) (instruments : Nat) (s : DrumSynth) :
    (s.idle_time_ms now > 300000 →
      s.Render E rng now cutoff buffer instruments =
        (s, { pushed := buffer.pushed ++ [0], free := buffer.free - 1 })) ∧
    (s.idle_time_ms now ≤ 300000 →
      s.Render E rng now cutoff buffer instruments =
        ({ (renderLoop E rng cutoff buffer.writable 0
              ⟨s, buffer, s.sample_, s.sample_counter_⟩).synth with
            sample_ := (renderLoop E rng cutoff buffer.writable 0
              ⟨s, buffer, s.sample_, s.sample_counter_⟩).sample,
            sample_counter_ := (renderLoop E rng cutoff buffer.writable 0
              ⟨s, buffer, s.sample_, s.sample_counter_⟩).sample_counter },
         (renderLoop E rng cutoff buffer.writable 0
              ⟨s, buffer, s.sample_, s.sample_counter_⟩).buffer) ∧
      (buffer.writable < 32 →
        s.Render E rng now cutoff buffer instruments = (s, buffer))) := by
  constructor
  · intro h
    unfold DrumSynth.Render
    rw [if_pos h]
    rfl
  · intro h
    have hn : ¬ s.idle_time_ms now > 300000 := by omega
    constructor
    · unfold DrumSynth.Render
      rw [if_neg hn]
    · intro hw
      unfold DrumSynth.Render
      rw [if_neg hn]
      have hl : renderLoop E rng cutoff buffer.writable 0
          ⟨s, buffer, s.sample_, s.sample_counter_⟩
          = ⟨s, buffer, s.sample_, s.sample_counter_⟩ := by
        cases hb : buffer.writable with
        | zero => rfl
        | succ n =>
          unfold renderLoop
          have : ¬ (buffer.writable ≥ kAudioBlockSize) := by
            unfold kAudioBlockSize; omega
          simp only [this, if_false]
      simp only [hl]

/-- C3, at a concrete input: the playing state, last triggered at 1000 ms, rendered
at 301001 ms (idle 300001 ms) and at 301000 ms (idle 300000 ms) into a buffer
with 5 free slots. -/
theorem Render_idle_witness :
    DrumSynth.playing.idle_time_ms 301001 > 300000 ∧
    DrumSynth.playing.Render Resources.ramp (fun k => (k, k)) 301001 77 ⟨[], 5⟩ 7
      = (DrumSynth.playing, ⟨[0], 4⟩) ∧
    DrumSynth.playing.idle_time_ms 301000 ≤ 300000 ∧
    DrumSynth.playing.Render Resources.ramp (fun k => (k, k)) 301000 77 ⟨[], 5⟩ 7
      = (DrumSynth.playing, ⟨[], 5⟩) :=
  ⟨by decide,
   (Render_idle Resources.ramp (fun k => (k, k)) 301001 77 ⟨[], 5⟩ 7 DrumSynth.playing).1
     (by decide),
   by decide,
   ((Render_idle Resources.ramp (fun k => (k, k)) 301000 77 ⟨[], 5⟩ 7 DrumSynth.playing).2
     (by decide)).2 (by decide)⟩

/-! ## Render: the two accumulators of a sample -/

theorem s16_eq {x : Int} (h1 : -32768 ≤ x) (h2 : x ≤ 32767) : s16 x = x := by
  unfold s16; omega

theorem s8_range (x : Int) : -128 ≤ s8 x ∧ s8 x ≤ 127 := by
  unfold s8; omega

theorem S8U8MulShift8_range (a : Int) (b : Nat) :
    -128 ≤ S8U8MulShift8 a b ∧ S8U8MulShift8 a b ≤ 127 := s8_range _

theorem contribution_range (E : Resources) (noise : Nat) (p : DrumPatch) (st : DrumState) :
    -256 ≤ contribution E noise p st ∧ contribution E noise p st ≤ 254 := by
  unfold contribution
  simp only []
  split_ifs
  · have a := S8U8MulShift8_range
      (s8 (pgm_read_byte E.wav_res_sine (u16 (st.phase + st.phase_increment) / 256))) st.amp_level
    have b := S8U8MulShift8_range noise st.amp_level_noise
    omega
  · have a := S8U8MulShift8_range
      (s8 (pgm_read_byte E.wav_res_hh (U16ShiftRight4 (u16 (st.phase + st.phase_increment)))))
      st.amp_level
    omega
  · have a := S8U8MulShift8_range
      (s8 (s8 (pgm_read_byte E.wav_res_sine (u16 (st.phase + st.phase_increment) / 256)) +
        S8U8MulShift8
          (s8 (pgm_read_byte E.wav_res_sine (u16 (st.phase + st.phase_increment) / 256 + 1)) -
            s8 (pgm_read_byte E.wav_res_sine (u16 (st.phase + st.phase_increment) / 256)))
          (u16 (st.phase + st.phase_increment)))) st.amp_level
    omega

theorem renderVoice_acc (E : Resources) (noise : Nat) (p : DrumPatch) (st : DrumState)
    (acc : Acc) (h1 : -32000 ≤ acc.mix) (h2 : acc.mix ≤ 32000) (h3 : 0 ≤ acc.cf)
    (h4 : acc.cf ≤ 32000) (ha : st.amp_level < 256) :
    (renderVoice E noise p st acc).1 = { st with phase := u16 (st.phase + st.phase_increment) } ∧
    (renderVoice E noise p st acc).2.mix = acc.mix + contribution E noise p st ∧
    (renderVoice E noise p st acc).2.cf = acc.cf + st.amp_level := by
  have hcf : s16 (acc.cf + (st.amp_level : Int)) = acc.cf + st.amp_level :=
    s16_eq (by omega) (by omega)
  unfold renderVoice contribution
  simp only []
  split_ifs
  · have a := S8U8MulShift8_range
      (s8 (pgm_read_byte E.wav_res_sine (u16 (st.phase + st.phase_increment) / 256))) st.amp_level
    have b := S8U8MulShift8_range noise st.amp_level_noise
    refine ⟨rfl, ?_, hcf⟩
    simp only []
    rw [s16_eq (x := acc.mix + _) (by omega) (by omega), s16_eq (by omega) (by omega)]
    omega
  · have a := S8U8MulShift8_range
      (s8 (pgm_read_byte E.wav_res_hh (U16ShiftRight4 (u16 (st.phase + st.phase_increment)))))
      st.amp_level
    refine ⟨rfl, ?_, hcf⟩
    simp only []
    rw [s16_eq (by omega) (by omega)]
  · have a := S8U8MulShift8_range
      (s8 (s8 (pgm_read_byte E.wav_res_sine (u16 (st.phase + st.phase_increment) / 256)) +
        S8U8MulShift8
          (s8 (pgm_read_byte E.wav_res_sine (u16 (st.phase + st.phase_increment) / 256 + 1)) -
            s8 (pgm_read_byte E.wav_res_sine (u16 (st.phase + st.phase_increment) / 256)))
          (u16 (st.phase + st.phase_increment)))) st.amp_level
    refine ⟨rfl, ?_, hcf⟩
    simp only []
    rw [s16_eq (by omega) (by omega)]

theorem renderVoices_acc (E : Resources) (noise cutoff : Nat) (patch_ : Slots DrumPatch)
    (state_ : Slots DrumState) (h0 : state_.s0.amp_level < 256)
    (h1 : state_.s1.amp_level < 256) (h2 : state_.s2.amp_level < 256) :
    (renderVoices E noise patch_ state_ ⟨s16 128, s16 (u8 cutoff)⟩).2 =
      ⟨mixTotal E noise patch_ state_, cfTotal (u8 cutoff) state_⟩ := by
  have hc := u8_lt cutoff
  have e1 : s16 128 = 128 := by decide
  have e2 : s16 ((u8 cutoff : Nat) : Int) = (u8 cutoff : Nat) := s16_eq (by omega) (by omega)
  have c0 := contribution_range E noise patch_.s0 state_.s0
  have c1 := contribution_range E noise patch_.s1 state_.s1
  obtain ⟨_, m0, f0⟩ := renderVoice_acc E noise patch_.s0 state_.s0 ⟨128, (u8 cutoff : Nat)⟩
    (by simp) (by simp) (by simp) (by simp; omega) h0
  simp only [] at m0 f0
  obtain ⟨_, m1, f1⟩ := renderVoice_acc E noise patch_.s1 state_.s1
    (renderVoice E noise patch_.s0 state_.s0 ⟨128, (u8 cutoff : Nat)⟩).2
    (by omega) (by omega) (by omega) (by omega) h1
  obtain ⟨_, m2, f2⟩ := renderVoice_acc E noise patch_.s2 state_.s2
    (renderVoice E noise patch_.s1 state_.s1
      (renderVoice E noise patch_.s0 state_.s0 ⟨128, (u8 cutoff : Nat)⟩).2).2
    (by omega) (by omega) (by omega) (by omega) h2
  unfold renderVoices
  simp only [e1, e2]
  have hmix : (renderVoice E noise patch_.s2 state_.s2
      (renderVoice E noise patch_.s1 state_.s1
        (renderVoice E noise patch_.s0 state_.s0 ⟨128, (u8 cutoff : Nat)⟩).2).2).2.mix
      = mixTotal E noise patch_ state_ := by
    rw [m2, m1, m0]; rfl
  have hcf : (renderVoice E noise patch_.s2 state_.s2
      (renderVoice E noise patch_.s1 state_.s1
        (renderVoice E noise patch_.s0 state_.s0 ⟨128, (u8 cutoff : Nat)⟩).2).2).2.cf
      = ((cfTotal (u8 cutoff) state_ : Nat) : Int) := by
    rw [f2, f1, f0]; unfold cfTotal; push_cast; rfl
  cases hr : (renderVoice E noise patch_.s2 state_.s2
      (renderVoice E noise patch_.s1 state_.s1
        (renderVoice E noise patch_.s0 state_.s0 ⟨128, (u8 cutoff : Nat)⟩).2).2).2 with
  | mk mix cf =>
    rw [hr] at hmix hcf
    simp only [] at hmix hcf
    rw [hmix, hcf]

theorem mixTotal_range (E : Resources) (noise : Nat) (patch_ : Slots DrumPatch)
    (state_ : Slots DrumState) :
    -640 ≤ mixTotal E noise patch_ state_ ∧ mixTotal E noise patch_ state_ ≤ 890 := by
  have c0 := contribution_range E noise patch_.s0 state_.s0
  have c1 := contribution_range E noise patch_.s1 state_.s1
  have c2 := contribution_range E noise patch_.s2 state_.s2
  unfold mixTotal
  omega

theorem clamp255_eq (x : Int) : clamp255 x = max 0 (min 255 x) := by
  unfold clamp255
  simp only []
  split_ifs <;> omega

theorem clamp255_toNat (x : Int) :
    u8 (clamp255 x).toNat = (clamp255 x).toNat ∧ (((clamp255 x).toNat : Nat) : Int) = max 0 (min 255 x)
      ∧ (clamp255 x).toNat ≤ 255 := by
  rw [clamp255_eq]
  have h : (max 0 (min 255 x)).toNat ≤ 255 := by omega
  exact ⟨u8_of_lt (by omega), by omega, h⟩

theorem clamp255_natCast (n : Nat) : (clamp255 (n : Int)).toNat = min 255 n := by
  rw [clamp255_eq]
  omega

theorem renderTick_eq (E : Resources) (cutoff sample_rate_ : Nat) (patch_ : Slots DrumPatch)
    (state_ : Slots DrumState) (l : Locals) (hc : cutoff < 256)
    (h0 : state_.s0.amp_level < 256) (h1 : state_.s1.amp_level < 256)
    (h2 : state_.s2.amp_level < 256) :
    (u8 (l.sample_counter + 1) > sample_rate_ →
      ((renderTick E cutoff sample_rate_ patch_ state_ l).sample : Int) =
        max 0 (min 255 (mixTotal E (u8 (l.noise * 73 + 1)) patch_ state_))) ∧
    (¬ u8 (l.sample_counter + 1) > sample_rate_ →
      (renderTick E cutoff sample_rate_ patch_ state_ l).sample = l.sample) ∧
    (renderTick E cutoff sample_rate_ patch_ state_ l).cf = min 255 (cfTotal cutoff state_) := by
  have hacc := renderVoices_acc E (u8 (l.noise * 73 + 1)) cutoff patch_ state_ h0 h1 h2
  rw [u8_of_lt hc] at hacc
  unfold renderTick
  simp only [hacc, u8_of_lt hc]
  refine ⟨?_, ?_, ?_⟩
  · intro h
    rw [if_pos h]
    simp only []
    rw [(clamp255_toNat _).1, (clamp255_toNat _).2.1]
  · intro h
    rw [if_neg h]
  · rw [clamp255_natCast]
    exact u8_of_lt (by omega)

theorem Overwrite_mem (b : RingBuffer) (v x : Nat) (h : x ∈ (b.Overwrite v).pushed) :
    x ∈ b.pushed ∨ x ≤ 255 := by
  unfold RingBuffer.Overwrite at h
  simp only [List.mem_append, List.mem_singleton] at h
  rcases h with h | h
  · exact Or.inl h
  · have := u8_lt v
    exact Or.inr (by omega)

theorem renderTicks_pushed (E : Resources) (cutoff n : Nat) :
    ∀ (noise : Nat) (r : RenderState),
      (∀ x ∈ (renderTicks E cutoff n noise r).buffer.pushed, x ∈ r.buffer.pushed ∨ x ≤ 255) ∧
      (∀ x ∈ (renderTicks E cutoff n noise r).synth.CFBuffer.pushed,
        x ∈ r.synth.CFBuffer.pushed ∨ x ≤ 255) := by
  induction n with
  | zero =>
    intro noise r
    exact ⟨fun x h => Or.inl h, fun x h => Or.inl h⟩
  | succ n ih =>
    intro noise r
    unfold renderTicks
    simp only []
    constructor
    · intro x hx
      rcases (ih _ _).1 x hx with h | h
      · exact Overwrite_mem _ _ _ h
      · exact Or.inr h
    · intro x hx
      rcases (ih _ _).2 x hx with h | h
      · exact Overwrite_mem _ _ _ h
      · exact Or.inr h

theorem renderLoop_pushed (E : Resources) (rng : Nat → Nat × Nat) (cutoff fuel : Nat) :
    ∀ (k : Nat) (r : RenderState),
      (∀ x ∈ (renderLoop E rng cutoff fuel k r).buffer.pushed, x ∈ r.buffer.pushed ∨ x ≤ 255) ∧
      (∀ x ∈ (renderLoop E rng cutoff fuel k r).synth.CFBuffer.pushed,
        x ∈ r.synth.CFBuffer.pushed ∨ x ≤ 255) := by
  induction fuel with
  | zero =>
    intro k r
    exact ⟨fun x h => Or.inl h, fun x h => Or.inl h⟩
  | succ fuel ih =>
    intro k r
    unfold renderLoop
    split_ifs
    · have hb := renderTicks_pushed E cutoff kAudioBlockSize (u8 (rng k).2)
        { r with synth := r.synth.UpdateModulations E (rng k).1 }
      constructor
      · intro x hx
        rcases (ih _ _).1 x hx with h | h
        · exact hb.1 x h
        · exact Or.inr h
      · intro x hx
        rcases (ih _ _).2 x hx with h | h
        · exact hb.2 x h
        · exact Or.inr h
    · exact ⟨fun x h => Or.inl h, fun x h => Or.inl h⟩

theorem Render_pushed (E : Resources) (rng : Nat → Nat × Nat) (now cutoff : Nat)
    (buffer : RingBuffer) (instruments : Nat) (s : DrumSynth) :
    (∀ x ∈ (s.Render E rng now cutoff buffer instruments).2.pushed,
      x ∈ buffer.pushed ∨ x ≤ 255) ∧
    (∀ x ∈ (s.Render E rng now cutoff buffer instruments).1.CFBuffer.pushed,
      x ∈ s.CFBuffer.pushed ∨ x ≤ 255) := by
  unfold DrumSynth.Render
  split_ifs
  · exact ⟨fun x h => Overwrite_mem _ _ _ h, fun x h => Or.inl h⟩
  · exact renderLoop_pushed E rng cutoff buffer.writable 0 ⟨s, buffer, s.sample_, s.sample_counter_⟩

theorem updateVoice_amp_level_lt (E : Resources) (i rnd : Nat) (p : DrumPatch) (st : DrumState) :
    (updateVoice E i rnd p st).amp_level < 256 := by
  unfold updateVoice
  simp only []
  split_ifs <;> exact u8_lt _

theorem renderTick_state (E : Resources) (cutoff sample_rate_ : Nat) (patch_ : Slots DrumPatch)
    (state_ : Slots DrumState) (l : Locals) :
    (renderTick E cutoff sample_rate_ patch_ state_ l).state_ =
      ⟨{ state_.s0 with phase := u16 (state_.s0.phase + state_.s0.phase_increment) },
       { state_.s1 with phase := u16 (state_.s1.phase + state_.s1.phase_increment) },
       { state_.s2 with phase := u16 (state_.s2.phase + state_.s2.phase_increment) }⟩ := by
  unfold renderTick renderVoices renderVoice
  simp only []
  split_ifs <;> rfl

/-- C1: for every cutoff in 0..255, every patch content and every voice state
with byte-valued amplitude levels, one sample of a non-idle `Render` leaves in
the two `int16_t` accumulators the sums over unbounded integers (no wrap): the
bias 128 plus the three contributions, and the cutoff plus the three amplitude
levels; the sample committed is that mix clamped to 0..255, a sample not
committed is the held one, and the cutoff-bus sample is `min 255` of the cutoff
sum.  Both bytes handed to the buffers are at most 255.  The amplitude levels are
byte-valued at every sample of `Render`, as `UpdateModulations` stores bytes and
a sample changes the phases only; and every value `Render` pushes to the
caller's buffer or to the cutoff buffer is at most 255. -/
theorem Render_sample_values (E : Resources) (cutoff sample_rate_ : Nat)
    (patch_ : Slots DrumPatch) (state_ : Slots DrumState) (l : Locals) (hc : cutoff < 256)
    (h0 : state_.s0.amp_level < 256) (h1 : state_.s1.amp_level < 256)
    (h2 : state_.s2.amp_level < 256) :
    (renderVoices E (u8 (l.noise * 73 + 1)) patch_ state_ ⟨s16 128, s16 (u8 cutoff)⟩).2 =
      ⟨mixTotal E (u8 (l.noise * 73 + 1)) patch_ state_, cfTotal cutoff state_⟩ ∧
    (u8 (l.sample_counter + 1) > sample_rate_ →
      ((renderTick E cutoff sample_rate_ patch_ state_ l).sample : Int) =
        max 0 (min 255 (mixTotal E (u8 (l.noise * 73 + 1)) patch_ state_))) ∧
    (¬ u8 (l.sample_counter + 1) > sample_rate_ →
      (renderTick E cutoff sample_rate_ patch_ state_ l).sample = l.sample) ∧
    (renderTick E cutoff sample_rate_ patch_ state_ l).cf = min 255 (cfTotal cutoff state_) ∧
    (renderTick E cutoff sample_rate_ patch_ state_ l).cf ≤ 255 ∧
    (l.sample ≤ 255 → (renderTick E cutoff sample_rate_ patch_ state_ l).sample ≤ 255) ∧
    (∀ i rnd p st, (updateVoice E i rnd p st).amp_level < 256) ∧
    (renderTick E cutoff sample_rate_ patch_ state_ l).state_.s0.amp_level
      = state_.s0.amp_level ∧
    (renderTick E cutoff sample_rate_ patch_ state_ l).state_.s1.amp_level
      = state_.s1.amp_level ∧
    (renderTick E cutoff sample_rate_ patch_ state_ l).state_.s2.amp_level
      = state_.s2.amp_level ∧
    (∀ (rng : Nat → Nat × Nat) (now : Nat) (buffer : RingBuffer) (instruments : Nat)
        (s : DrumSynth),
      (∀ x ∈ (s.Render E rng now cutoff buffer instruments).2.pushed,
        x ∈ buffer.pushed ∨ x ≤ 255) ∧
      (∀ x ∈ (s.Render E rng now cutoff buffer instruments).1.CFBuffer.pushed,
        x ∈ s.CFBuffer.pushed ∨ x ≤ 255)) := by
  have hacc := renderVoices_acc E (u8 (l.noise * 73 + 1)) cutoff patch_ state_ h0 h1 h2
  rw [u8_of_lt hc] at hacc
  obtain ⟨t1, t2, t3⟩ := renderTick_eq E cutoff sample_rate_ patch_ state_ l hc h0 h1 h2
  have hst := renderTick_state E cutoff sample_rate_ patch_ state_ l
  refine ⟨by rw [u8_of_lt hc]; exact hacc, t1, t2, t3, ?_, ?_,
    fun i rnd p st => updateVoice_amp_level_lt E i rnd p st, by rw [hst], by rw [hst],
    by rw [hst], fun rng now buffer instruments s =>
      Render_pushed E rng now cutoff buffer instruments s⟩
  · rw [t3]; omega
  · intro hs
    by_cases h : u8 (l.sample_counter + 1) > sample_rate_
    · have := t1 h
      omega
    · rw [t2 h]; exact hs

/-- C1, at a concrete input: one sample of the playing state with cutoff 77, at a
tick that commits. -/
theorem Render_sample_values_witness :
    (77 < 256 ∧ DrumSynth.playing.state_.s0.amp_level < 256 ∧
      DrumSynth.playing.state_.s1.amp_level < 256 ∧
      DrumSynth.playing.state_.s2.amp_level < 256 ∧ u8 (3 + 1) > 3) ∧
    ((renderTick Resources.ramp 77 3 DrumSynth.playing.patch_ DrumSynth.playing.state_
        ⟨128, 3, 9⟩).sample : Int) =
      max 0 (min 255 (mixTotal Resources.ramp (u8 (9 * 73 + 1)) DrumSynth.playing.patch_
        DrumSynth.playing.state_)) ∧
    (renderTick Resources.ramp 77 3 DrumSynth.playing.patch_ DrumSynth.playing.state_
        ⟨128, 3, 9⟩).cf = min 255 (cfTotal 77 DrumSynth.playing.state_) :=
  have h := Render_sample_values Resources.ramp 77 3 DrumSynth.playing.patch_
    DrumSynth.playing.state_ ⟨128, 3, 9⟩ (by decide) (by decide) (by decide) (by decide)
  ⟨⟨by decide, by decide, by decide, by decide, by decide⟩, h.2.1 (by decide), h.2.2.2.1⟩

/-! ## SetBalance and SetBandwidth -/

/-- C11: for every `mix < 256`, `SetBalance mix` sets the levels of voices 0, 1, 2
to `(255, 2 * mix, mix)` when `mix < 128` and to `(511 - 2 * mix, 255, 127)` when
`mix ≥ 128`; the level of voice 2 is the level of voice 1 halved, one of voices 0
and 1 is at 255, `SetBalance 0` gives `(255, 0, 0)` and `SetBalance 255` gives
`(1, 255, 127)`; no other patch field and nothing outside the patches changes. -/
theorem SetBalance_levels (s : DrumSynth) (mix : Nat) (h : mix < 256) :
    (mix < 128 → (s.SetBalance mix).patch_.s0.level = 255 ∧
      (s.SetBalance mix).patch_.s1.level = 2 * mix ∧ (s.SetBalance mix).patch_.s2.level = mix) ∧
    (128 ≤ mix → (s.SetBalance mix).patch_.s0.level = 511 - 2 * mix ∧
      (s.SetBalance mix).patch_.s1.level = 255 ∧ (s.SetBalance mix).patch_.s2.level = 127) ∧
    (s.SetBalance mix).patch_.s2.level = (s.SetBalance mix).patch_.s1.level / 2 ∧
    ((s.SetBalance mix).patch_.s0.level = 255 ∨ (s.SetBalance mix).patch_.s1.level = 255) ∧
    ((s.SetBalance 0).patch_.s0.level = 255 ∧ (s.SetBalance 0).patch_.s1.level = 0 ∧
      (s.SetBalance 0).patch_.s2.level = 0) ∧
    ((s.SetBalance 255).patch_.s0.level = 1 ∧ (s.SetBalance 255).patch_.s1.level = 255 ∧
      (s.SetBalance 255).patch_.s2.level = 127) ∧
    { (s.SetBalance mix).patch_.s0 with level := s.patch_.s0.level } = s.patch_.s0 ∧
    { (s.SetBalance mix).patch_.s1 with level := s.patch_.s1.level } = s.patch_.s1 ∧
    { (s.SetBalance mix).patch_.s2 with level := s.patch_.s2.level } = s.patch_.s2 ∧
    { s.SetBalance mix with patch_ := s.patch_ } = s := by
  have e : ∀ m, m < 256 →
      (s.SetBalance m).patch_.s0.level = (if m < 128 then 255 else 255 - u8 ((m - 128) * 2)) ∧
      (s.SetBalance m).patch_.s1.level = (if m < 128 then u8 (m * 2) else 255) ∧
      (s.SetBalance m).patch_.s2.level = (if m < 128 then u8 (m * 2) else 255) / 2 := by
    intro m hm
    simp only [DrumSynth.SetBalance, u8_of_lt hm]
    split_ifs <;> exact ⟨rfl, rfl, rfl⟩
  obtain ⟨e0, e1, e2⟩ := e mix h
  obtain ⟨z0, z1, z2⟩ := e 0 (by decide)
  obtain ⟨f0, f1, f2⟩ := e 255 (by decide)
  rw [e0, e1, e2, z0, z1, z2, f0, f1, f2]
  clear e0 e1 e2 z0 z1 z2 f0 f1 f2 e
  unfold u8
  refine ⟨?_, ?_, ?_, ?_, ⟨by decide, by decide, by decide⟩, ⟨by decide, by decide, by decide⟩,
    ?_, ?_, ?_, rfl⟩
  · intro hm
    simp only [if_pos hm]
    and_intros <;> first | omega | exact True.intro
  · intro hm
    have hn : ¬ mix < 128 := by omega
    simp only [if_neg hn]
    and_intros <;> first | omega | exact True.intro
  · trivial
  · split_ifs
    · exact Or.inl rfl
    · exact Or.inr rfl
  · simp only [DrumSynth.SetBalance]
    split_ifs <;> rfl
  · simp only [DrumSynth.SetBalance]
    split_ifs <;> rfl
  · simp only [DrumSynth.SetBalance]
    split_ifs <;> rfl

/-- C11, at a concrete input: the playing state with the crossfade at 200. -/
theorem SetBalance_levels_witness :
    200 < 256 ∧ (DrumSynth.playing.SetBalance 200).patch_.s0.level = 511 - 2 * 200 ∧
      (DrumSynth.playing.SetBalance 200).patch_.s1.level = 255 ∧
      (DrumSynth.playing.SetBalance 200).patch_.s2.level = 127 :=
  ⟨by decide, (SetBalance_levels DrumSynth.playing 200 (by decide)).2.1 (by decide)⟩

/-- C17: for every `bandwidth < 256`, `SetBandwidth bandwidth` sets `sample_rate_`
to `(255 - bandwidth) / 8`, a value of at most 31, so that the hold length
`sample_rate_ + 1` is at most the block size 32; the divisor does not increase
when the bandwidth does, it is 0 for bandwidth 255 and 31 for bandwidth 0; and
nothing but `sample_rate_` changes. -/
theorem SetBandwidth_divisor (s : DrumSynth) (bandwidth : Nat) (h : bandwidth < 256) :
    (s.SetBandwidth bandwidth).sample_rate_ = (255 - bandwidth) / 8 ∧
    (s.SetBandwidth bandwidth).sample_rate_ ≤ 31 ∧
    (s.SetBandwidth bandwidth).sample_rate_ + 1 ≤ kAudioBlockSize ∧
    (∀ b2, bandwidth ≤ b2 → b2 < 256 →
      (s.SetBandwidth b2).sample_rate_ ≤ (s.SetBandwidth bandwidth).sample_rate_) ∧
    (s.SetBandwidth 255).sample_rate_ = 0 ∧ (s.SetBandwidth 0).sample_rate_ = 31 ∧
    { s.SetBandwidth bandwidth with sample_rate_ := s.sample_rate_ } = s := by
  have e : ∀ b, b < 256 → (s.SetBandwidth b).sample_rate_ = (255 - b) / 8 := by
    intro b hb
    simp only [DrumSynth.SetBandwidth, u8_of_lt hb]
  refine ⟨e _ h, ?_, ?_, ?_, rfl, rfl, rfl⟩
  · rw [e _ h]; omega
  · rw [e _ h]; unfold kAudioBlockSize; omega
  · intro b2 h1 h2
    rw [e _ h, e _ h2]
    omega

/-- C17, at a concrete input: bandwidth 100 gives the divisor 19. -/
theorem SetBandwidth_divisor_witness :
    100 < 256 ∧ (DrumSynth.playing.SetBandwidth 100).sample_rate_ = (255 - 100) / 8 ∧
      (DrumSynth.playing.SetBandwidth 100).sample_rate_ ≤ 31 :=
  ⟨by decide, (SetBandwidth_divisor DrumSynth.playing 100 (by decide)).1,
    (SetBandwidth_divisor DrumSynth.playing 100 (by decide)).2.1⟩

/-! ## Trigger -/

theorem Trigger_eq (E : Resources) (s : DrumSynth) (now i level : Nat) (hi : i < 3) :
    ∃ st p states, s.state_.get? i = some st ∧ s.patch_.get? i = some p ∧
      s.state_.set? i
        { st with phase := 0, pitch_env_phase := 0, amp_env_phase := 0,
                  pitch_env_increment := u16 (E.lut_res_drm_env_increments p.pitch_decay),
                  amp_env_increment := u16 (E.lut_res_drm_env_increments p.amp_decay),
                  level := U8U8MulShift8 level p.level } = some states ∧
      s.Trigger E now i level =
        some { s with last_event_time_ := u32 now, state_ := states } := by
  obtain ⟨st, hst⟩ := s.state_.get?_of_lt hi
  obtain ⟨p, hp⟩ := s.patch_.get?_of_lt hi
  obtain ⟨y, hy⟩ := s.state_.set?_of_lt hi
    { st with phase := 0, pitch_env_phase := 0, amp_env_phase := 0,
              pitch_env_increment := u16 (E.lut_res_drm_env_increments p.pitch_decay),
              amp_env_increment := u16 (E.lut_res_drm_env_increments p.amp_decay),
              level := U8U8MulShift8 level p.level }
  refine ⟨st, p, y, hst, hp, hy, ?_⟩
  simp [DrumSynth.Trigger, hst, hp, hy]

theorem U8U8MulShift8_eq {a b : Nat} (ha : a < 256) (hb : b < 256) :
    U8U8MulShift8 a b = a * b / 256 := by
  unfold U8U8MulShift8
  rw [u8_of_lt ha, u8_of_lt hb]
  apply u8_of_lt
  have : a * b ≤ 255 * 255 := Nat.mul_le_mul (by omega) (by omega)
  omega

/-- C12: for every instrument `i < 3` and every `level < 256`, `Trigger i level`
succeeds; afterwards the phase and both envelope phases of instrument `i` are 0,
its pitch and amp envelope increments are the 16-bit entries of the
decay-increment table at the `pitch_decay` and `amp_decay` of patch `i`, its
state level is `level * patch level / 256`, `last_event_time_` is the current
time, so that the idle time is 0, and the state of the other instruments and
all patches are unchanged. -/
theorem Trigger_effect (E : Resources) (s : DrumSynth) (now i level : Nat) (hi : i < 3)
    (hl : level < 256) :
    ∃ s1 st p, s.Trigger E now i level = some s1 ∧ s.patch_.get? i = some p ∧
      s1.state_.get? i = some st ∧
      st.phase = 0 ∧ st.pitch_env_phase = 0 ∧ st.amp_env_phase = 0 ∧
      st.pitch_env_increment = u16 (E.lut_res_drm_env_increments p.pitch_decay) ∧
      st.amp_env_increment = u16 (E.lut_res_drm_env_increments p.amp_decay) ∧
      (p.level < 256 → st.level = level * p.level / 256) ∧
      s1.last_event_time_ = u32 now ∧ (now < 4294967296 → s1.last_event_time_ = now) ∧
      s1.idle_time_ms now = 0 ∧
      (∀ j, j ≠ i → s1.state_.get? j = s.state_.get? j) ∧ s1.patch_ = s.patch_ := by
  obtain ⟨st, p, y, _, hp, hy, h⟩ := Trigger_eq E s now i level hi
  refine ⟨_, _, p, h, hp, Slots.get?_set?_eq _ _ _ _ hy, rfl, rfl, rfl, rfl, rfl, ?_, rfl, ?_,
    ?_, ?_, rfl⟩
  · intro hpl
    exact U8U8MulShift8_eq hl hpl
  · intro hn
    exact Nat.mod_eq_of_lt hn
  · simp only [DrumSynth.idle_time_ms, u32]
    omega
  · intro j hj
    exact Slots.get?_set?_ne _ _ _ j _ hy hj

/-- C12, at a concrete input: the snare of the playing state triggered with level
200 at 5000 ms. -/
theorem Trigger_effect_witness :
    ∃ s1 st p, DrumSynth.playing.Trigger Resources.ramp 5000 1 200 = some s1 ∧
      DrumSynth.playing.patch_.get? 1 = some p ∧ s1.state_.get? 1 = some st ∧
      st.phase = 0 ∧ st.pitch_env_phase = 0 ∧ st.amp_env_phase = 0 ∧
      st.pitch_env_increment = u16 (Resources.ramp.lut_res_drm_env_increments p.pitch_decay) ∧
      st.amp_env_increment = u16 (Resources.ramp.lut_res_drm_env_increments p.amp_decay) ∧
      (p.level < 256 → st.level = 200 * p.level / 256) ∧
      s1.last_event_time_ = u32 5000 ∧ (5000 < 4294967296 → s1.last_event_time_ = 5000) ∧
      s1.idle_time_ms 5000 = 0 ∧
      (∀ j, j ≠ 1 → s1.state_.get? j = DrumSynth.playing.state_.get? j) ∧
      s1.patch_ = DrumSynth.playing.patch_ :=
  Trigger_effect Resources.ramp DrumSynth.playing 5000 1 200 (by decide) (by decide)

/-! ## MorphPatch: the indices read -/

/-- C18: for every instrument `i < 3` and every `value < 256`, `MorphPatch i value`
reads the presets at the indices `k = 5 * i + value / 64` and `k + 1`, with
`5 * i ≤ k` and `k + 1 ≤ 5 * i + 4 ≤ 14`: both are inside the table of fifteen
presets and inside the group of five presets of slot `i`; the blend factor is
`4 * (value % 64)`, a multiple of 4 that is at most 252. -/
theorem MorphPatch_indices (s : DrumSynth) (i value : Nat) (hi : i < 3) (hv : value < 256) :
    ∃ q a b patches, morphOffset i value = 5 * i + value / 64 ∧
      5 * i ≤ 5 * i + value / 64 ∧ 5 * i + value / 64 + 1 ≤ 5 * i + 4 ∧ 5 * i + 4 ≤ 14 ∧
      5 * i + value / 64 + 1 < drum_presets.length ∧
      drum_presets[5 * i + value / 64]? = some a ∧
      drum_presets[5 * i + value / 64 + 1]? = some b ∧
      morphBalance value = 4 * (value % 64) ∧ morphBalance value % 4 = 0 ∧
      morphBalance value ≤ 252 ∧
      s.patch_.get? i = some q ∧
      s.patch_.set? i { mixPresets a b (4 * (value % 64)) { q with level := 255 } with
        synth := q.synth } = some patches ∧
      s.MorphPatch i value = some { s with patch_ := patches } := by
  obtain ⟨q, a, b, y, hq, ha, _, hb, _, hy, h⟩ := MorphPatch_eq s i value hi hv
  have hk : value / 64 ≤ 3 := by omega
  have hbal := morphBalance_eq value
  have hlen : drum_presets.length = 15 := rfl
  rw [hbal] at hy
  refine ⟨q, a, b, y, morphOffset_eq hi hv, by omega, by omega, by omega, by omega, ha, hb,
    hbal, by omega, by omega, hq, hy, h⟩

/-- C18, at a concrete input: slot 2 morphed with value 255 reads the presets 13
and 14 with blend factor 252. -/
theorem MorphPatch_indices_witness :
    ∃ q a b patches, morphOffset 2 255 = 5 * 2 + 255 / 64 ∧
      5 * 2 ≤ 5 * 2 + 255 / 64 ∧ 5 * 2 + 255 / 64 + 1 ≤ 5 * 2 + 4 ∧ 5 * 2 + 4 ≤ 14 ∧
      5 * 2 + 255 / 64 + 1 < drum_presets.length ∧
      drum_presets[5 * 2 + 255 / 64]? = some a ∧
      drum_presets[5 * 2 + 255 / 64 + 1]? = some b ∧
      morphBalance 255 = 4 * (255 % 64) ∧ morphBalance 255 % 4 = 0 ∧
      morphBalance 255 ≤ 252 ∧
      DrumSynth.playing.patch_.get? 2 = some q ∧
      DrumSynth.playing.patch_.set? 2
        { mixPresets a b (4 * (255 % 64)) { q with level := 255 } with
          synth := q.synth } = some patches ∧
      DrumSynth.playing.MorphPatch 2 255 = some { DrumSynth.playing with patch_ := patches } :=
  MorphPatch_indices DrumSynth.playing 2 255 (by decide) (by decide)

/-! ## Control operations and the derived fields -/

theorem SetParameterCc_eq (s : DrumSynth) (cc value : Nat) :
    ∃ patches, s.SetParameterCc cc value = some { s with patch_ := patches } := by
  by_cases h : cc < 16 ∨ cc > 30
  · exact ⟨s.patch_, by simp [DrumSynth.SetParameterCc, h]⟩
  · have hmap : ∃ address, address < 18 ∧ u8 (drums_cc_map.getD (cc - 16) 0) = address := by
      have h1 : 16 ≤ cc := by omega
      have h2 : cc ≤ 30 := by omega
      interval_cases cc <;> exact ⟨_, by decide, rfl⟩
    obtain ⟨address, hlt, hu⟩ := hmap
    obtain ⟨y, hy, _⟩ := setPatchByte_block s.patch_ hlt (u8 (u8 value * 2))
    refine ⟨y, ?_⟩
    unfold DrumSynth.SetParameterCc
    rw [if_neg h]
    simp only [hu, hy]
    rfl

/-- C14: each control operation called with in-range arguments succeeds and leaves
`phase_increment`, `amp_level` and `amp_level_noise` of every instrument
unchanged: `Trigger` changes other fields of one voice state only, `LoadPatch`,
`MorphPatch`, `SetParameterCc` and `SetBalance` leave the voice states alone, and
so does `SetBandwidth`. -/
theorem control_keeps_derived (E : Resources) (s : DrumSynth) :
    (∀ now i level, i < 3 →
      ∃ s1, s.Trigger E now i level = some s1 ∧
        derivedFields s1.state_ = derivedFields s.state_) ∧
    (∀ i p, i < 3 → p < 15 →
      ∃ s1, s.LoadPatch i p = some s1 ∧ s1.state_ = s.state_ ∧
        derivedFields s1.state_ = derivedFields s.state_) ∧
    (∀ i value, i < 3 → value < 256 →
      ∃ s1, s.MorphPatch i value = some s1 ∧ s1.state_ = s.state_ ∧
        derivedFields s1.state_ = derivedFields s.state_) ∧
    (∀ cc value,
      ∃ s1, s.SetParameterCc cc value = some s1 ∧ s1.state_ = s.state_ ∧
        derivedFields s1.state_ = derivedFields s.state_) ∧
    (∀ bandwidth, (s.SetBandwidth bandwidth).state_ = s.state_ ∧
      derivedFields (s.SetBandwidth bandwidth).state_ = derivedFields s.state_) ∧
    (∀ mix, (s.SetBalance mix).state_ = s.state_ ∧
      derivedFields (s.SetBalance mix).state_ = derivedFields s.state_) := by
  refine ⟨?_, ?_, ?_, ?_, fun _ => ⟨rfl, rfl⟩, fun _ => ⟨rfl, rfl⟩⟩
  · intro now i level hi
    obtain ⟨st, p, y, hst, _, hy, h⟩ := Trigger_eq E s now i level hi
    refine ⟨_, h, ?_⟩
    interval_cases i <;>
      · simp only [Slots.get?] at hst
        simp only [Slots.set?] at hy
        cases Option.some.inj hst
        cases Option.some.inj hy
        rfl
  · intro i p hi hp
    obtain ⟨_, _, y, _, _, _, _, h⟩ := LoadPatch_eq s i p hi hp
    exact ⟨_, h, rfl, rfl⟩
  · intro i value hi hv
    obtain ⟨_, _, _, y, _, _, _, _, _, _, h⟩ := MorphPatch_eq s i value hi hv
    exact ⟨_, h, rfl, rfl⟩
  · intro cc value
    obtain ⟨y, h⟩ := SetParameterCc_eq s cc value
    exact ⟨_, h, rfl, rfl⟩

/-- C14, at a concrete input: the operations applied to the playing state. -/
theorem control_keeps_derived_witness :
    (∃ s1, DrumSynth.playing.Trigger Resources.ramp 5000 0 255 = some s1 ∧
      derivedFields s1.state_ = derivedFields DrumSynth.playing.state_) ∧
    (∃ s1, DrumSynth.playing.LoadPatch 2 3 = some s1 ∧
      s1.state_ = DrumSynth.playing.state_ ∧
      derivedFields s1.state_ = derivedFields DrumSynth.playing.state_) ∧
    (∃ s1, DrumSynth.playing.MorphPatch 1 77 = some s1 ∧
      s1.state_ = DrumSynth.playing.state_ ∧
      derivedFields s1.state_ = derivedFields DrumSynth.playing.state_) :=
  have h := control_keeps_derived Resources.ramp DrumSynth.playing
  ⟨h.1 5000 0 255 (by decide), h.2.1 2 3 (by decide) (by decide),
    h.2.2.1 1 77 (by decide) (by decide)⟩

/-! ## UpdateModulations: amplitude levels -/

theorem S8U8MulShift8_zero (a : Int) : S8U8MulShift8 a 0 = 0 := by
  simp [S8U8MulShift8, u8, s8]

theorem updateVoice_levels_eq (E : Resources) (i rnd : Nat) (p : DrumPatch) (st : DrumState) :
    (p.synth = SYNTH_SD →
      (updateVoice E i rnd p st).amp_level =
        U8U8MulShift8 (U8U8MulShift8 st.level
          (u8 (E.InterpolateSample E.wav_res_drm_envelope
            (updateVoice E i rnd p st).amp_env_phase))) (255 - u8 p.crunchiness) ∧
      (updateVoice E i rnd p st).amp_level_noise =
        U8U8MulShift8 (U8U8MulShift8 st.level
          (u8 (E.InterpolateSample E.wav_res_drm_envelope
            (updateVoice E i rnd p st).amp_env_phase))) p.crunchiness) ∧
    (p.synth ≠ SYNTH_SD →
      (updateVoice E i rnd p st).amp_level =
        U8U8MulShift8 st.level
          (u8 (E.InterpolateSample E.wav_res_drm_envelope
            (updateVoice E i rnd p st).amp_env_phase))) := by
  unfold updateVoice
  simp only []
  split_ifs <;> simp_all

/-- C20: for every state level `L < 256`, envelope value `e` and crunchiness
`c < 256`, after the modulation step of a voice, with `A = L * e / 256`: a snare
voice has `amp_level = A * (255 - c) / 256` and
`amp_level_noise = A * c / 256`, whose sum is at most `A`; a voice of any other
type has `amp_level = A`; `A ≤ L`; and when `L = 0` the voice adds 0 to the mix
and 0 to the cutoff accumulator at every sample that keeps these two levels,
whatever its phase. -/
theorem updateVoice_levels (E : Resources) (i rnd : Nat) (p : DrumPatch) (st : DrumState)
    (hL : st.level < 256) (hc : p.crunchiness < 256) :
    ∃ e A, e = u8 (E.InterpolateSample E.wav_res_drm_envelope
        (updateVoice E i rnd p st).amp_env_phase) ∧ e ≤ 255 ∧
      A = st.level * e / 256 ∧ A ≤ st.level ∧
      (p.synth = SYNTH_SD →
        (updateVoice E i rnd p st).amp_level = A * (255 - p.crunchiness) / 256 ∧
        (updateVoice E i rnd p st).amp_level_noise = A * p.crunchiness / 256 ∧
        (updateVoice E i rnd p st).amp_level + (updateVoice E i rnd p st).amp_level_noise ≤ A) ∧
      (p.synth ≠ SYNTH_SD → (updateVoice E i rnd p st).amp_level = A) ∧
      (st.level = 0 → ∀ (noise : Nat) (st2 : DrumState),
        st2.amp_level = (updateVoice E i rnd p st).amp_level →
        st2.amp_level_noise = (updateVoice E i rnd p st).amp_level_noise →
        contribution E noise p st2 = 0 ∧ st2.amp_level = 0 ∧
        ∀ acc : Acc, -32000 ≤ acc.mix → acc.mix ≤ 32000 → 0 ≤ acc.cf → acc.cf ≤ 32000 →
          (renderVoice E noise p st2 acc).2 = acc) := by
  obtain ⟨hsd, hother⟩ := updateVoice_levels_eq E i rnd p st
  have he := u8_lt (E.InterpolateSample E.wav_res_drm_envelope
    (updateVoice E i rnd p st).amp_env_phase)
  generalize u8 (E.InterpolateSample E.wav_res_drm_envelope
    (updateVoice E i rnd p st).amp_env_phase) = e at hsd hother he
  have hA : U8U8MulShift8 st.level e = st.level * e / 256 := U8U8MulShift8_eq hL he
  have hAL : st.level * e / 256 ≤ st.level := by
    apply Nat.div_le_of_le_mul
    have : st.level * e ≤ st.level * 256 := Nat.mul_le_mul_left _ (by omega)
    omega
  rw [hA] at hsd hother
  have hAlt : st.level * e / 256 < 256 := by omega
  have hsd2 : p.synth = SYNTH_SD →
      (updateVoice E i rnd p st).amp_level = st.level * e / 256 * (255 - p.crunchiness) / 256 ∧
      (updateVoice E i rnd p st).amp_level_noise = st.level * e / 256 * p.crunchiness / 256 := by
    intro h
    obtain ⟨a, b⟩ := hsd h
    rw [u8_of_lt hc, U8U8MulShift8_eq hAlt (by omega)] at a
    rw [U8U8MulShift8_eq hAlt hc] at b
    exact ⟨a, b⟩
  refine ⟨e, st.level * e / 256, rfl, by omega, rfl, hAL, ?_, hother, ?_⟩
  · intro h
    obtain ⟨a, b⟩ := hsd2 h
    refine ⟨a, b, ?_⟩
    rw [a, b]
    generalize st.level * e / 256 = A
    have hsum : A * (255 - p.crunchiness) + A * p.crunchiness = 255 * A := by
      rw [← Nat.mul_add, Nat.sub_add_cancel (by omega), Nat.mul_comm]
    generalize A * (255 - p.crunchiness) = x at hsum
    generalize A * p.crunchiness = y at hsum
    omega
  · intro h0 noise st2 h1 h2
    have hzero : st.level * e / 256 = 0 := by rw [h0]; simp
    have hamp : (updateVoice E i rnd p st).amp_level = 0 := by
      by_cases h : p.synth = SYNTH_SD
      · rw [(hsd2 h).1, hzero]; simp
      · rw [hother h, hzero]
    have hnoise : p.synth = SYNTH_SD → (updateVoice E i rnd p st).amp_level_noise = 0 := by
      intro h
      rw [(hsd2 h).2, hzero]; simp
    rw [hamp] at h1
    have hcontr : contribution E noise p st2 = 0 := by
      unfold contribution
      simp only []
      split_ifs with h
      · rw [h1, h2, hnoise h, S8U8MulShift8_zero, S8U8MulShift8_zero]; rfl
      · rw [h1, S8U8MulShift8_zero]
      · rw [h1, S8U8MulShift8_zero]
    refine ⟨hcontr, h1, ?_⟩
    intro acc a1 a2 a3 a4
    obtain ⟨_, m, f⟩ := renderVoice_acc E noise p st2 acc a1 a2 a3 a4 (by omega)
    rw [hcontr] at m
    rw [h1] at f
    cases hr : (renderVoice E noise p st2 acc).2 with
    | mk mix cf =>
      rw [hr] at m f
      simp only [] at m f
      cases acc with
      | mk m0 c0 =>
        simp only [] at m f
        simp only [Acc.mk.injEq]
        constructor
        · omega
        · simpa using f

/-- C20, at a concrete input: the snare of the playing state. -/
theorem updateVoice_levels_witness :
    (DrumSynth.playing.state_.s1.level < 256 ∧ DrumSynth.playing.patch_.s1.crunchiness < 256) ∧
    ∃ e A, e = u8 (Resources.ramp.InterpolateSample Resources.ramp.wav_res_drm_envelope
        (updateVoice Resources.ramp 1 5 DrumSynth.playing.patch_.s1
          DrumSynth.playing.state_.s1).amp_env_phase) ∧ e ≤ 255 ∧
      A = DrumSynth.playing.state_.s1.level * e / 256 ∧ A ≤ DrumSynth.playing.state_.s1.level ∧
      (DrumSynth.playing.patch_.s1.synth = SYNTH_SD →
        (updateVoice Resources.ramp 1 5 DrumSynth.playing.patch_.s1
          DrumSynth.playing.state_.s1).amp_level
          = A * (255 - DrumSynth.playing.patch_.s1.crunchiness) / 256 ∧
        (updateVoice Resources.ramp 1 5 DrumSynth.playing.patch_.s1
          DrumSynth.playing.state_.s1).amp_level_noise
          = A * DrumSynth.playing.patch_.s1.crunchiness / 256) :=
  ⟨⟨by decide, by decide⟩,
    (updateVoice_levels Resources.ramp 1 5 DrumSynth.playing.patch_.s1
      DrumSynth.playing.state_.s1 (by decide) (by decide)).imp fun _ h =>
        h.imp fun _ h => ⟨h.1, h.2.1, h.2.2.1, h.2.2.2.1,
          fun hs => ⟨(h.2.2.2.2.1 hs).1, (h.2.2.2.2.1 hs).2.1⟩⟩⟩

/-! ## Render: the block loop -/

theorem renderTicks_reframe (E : Resources) (cutoff n : Nat) :
    ∀ (noise : Nat) (r : RenderState) (f a b : Nat),
      renderTicks E cutoff n noise (r.reframe f a b) =
        (renderTicks E cutoff n noise r).reframe (f - n) a b := by
  induction n with
  | zero => intro noise r f a b; rfl
  | succ n ih =>
    intro noise r f a b
    unfold renderTicks
    simp only []
    have h := ih (renderTick E cutoff r.synth.sample_rate_ r.synth.patch_ r.synth.state_
        ⟨r.sample, r.sample_counter, noise⟩).locals.noise
      { synth := { r.synth with
          state_ := (renderTick E cutoff r.synth.sample_rate_ r.synth.patch_ r.synth.state_
            ⟨r.sample, r.sample_counter, noise⟩).state_,
          CFBuffer := r.synth.CFBuffer.Overwrite
            (renderTick E cutoff r.synth.sample_rate_ r.synth.patch_ r.synth.state_
              ⟨r.sample, r.sample_counter, noise⟩).cf },
        buffer := r.buffer.Overwrite
          (renderTick E cutoff r.synth.sample_rate_ r.synth.patch_ r.synth.state_
            ⟨r.sample, r.sample_counter, noise⟩).sample,
        sample := (renderTick E cutoff r.synth.sample_rate_ r.synth.patch_ r.synth.state_
          ⟨r.sample, r.sample_counter, noise⟩).locals.sample,
        sample_counter := (renderTick E cutoff r.synth.sample_rate_ r.synth.patch_
          r.synth.state_ ⟨r.sample, r.sample_counter, noise⟩).locals.sample_counter }
      (f - 1) a b
    rw [Nat.sub_sub, Nat.add_comm 1 n] at h
    exact h

theorem renderBlock_reframe (E : Resources) (cutoff rnd msb : Nat) (r : RenderState)
    (f a b : Nat) :
    renderBlock E cutoff rnd msb (r.reframe f a b) =
      (renderBlock E cutoff rnd msb r).reframe (f - 32) a b :=
  renderTicks_reframe E cutoff 32 (u8 msb)
    { r with synth := r.synth.UpdateModulations E rnd } f a b

theorem renderBlocks_reframe (E : Resources) (rng : Nat → Nat × Nat) (cutoff n : Nat) :
    ∀ (k : Nat) (r : RenderState) (f a b : Nat),
      renderBlocks E rng cutoff n k (r.reframe f a b) =
        (renderBlocks E rng cutoff n k r).reframe (f - 32 * n) a b := by
  induction n with
  | zero => intro k r f a b; rfl
  | succ n ih =>
    intro k r f a b
    unfold renderBlocks
    rw [renderBlock_reframe, ih, Nat.sub_sub]
    have e : 32 + 32 * n = 32 * (n + 1) := by omega
    rw [e]

theorem reframe_self (r : RenderState) :
    r.reframe r.buffer.free r.synth.sample_ r.synth.sample_counter_ = r := rfl

theorem renderBlocks_free (E : Resources) (rng : Nat → Nat × Nat) (cutoff n k : Nat)
    (r : RenderState) :
    (renderBlocks E rng cutoff n k r).buffer.free = r.buffer.free - 32 * n := by
  have h := renderBlocks_reframe E rng cutoff n k r r.buffer.free r.synth.sample_
    r.synth.sample_counter_
  rw [reframe_self] at h
  rw [h]
  rfl

theorem renderLoop_eq_renderBlocks (E : Resources) (rng : Nat → Nat × Nat) (cutoff fuel : Nat) :
    ∀ (k : Nat) (r : RenderState), r.buffer.free / 32 ≤ fuel →
      renderLoop E rng cutoff fuel k r = renderBlocks E rng cutoff (r.buffer.free / 32) k r := by
  induction fuel with
  | zero =>
    intro k r h
    have h0 : r.buffer.free / 32 = 0 := by omega
    rw [h0]
    rfl
  | succ fuel ih =>
    intro k r h
    unfold renderLoop
    by_cases hw : r.buffer.writable ≥ kAudioBlockSize
    · rw [if_pos hw]
      have hw2 : 32 ≤ r.buffer.free := hw
      have hfree : (renderBlock E cutoff (rng k).1 (rng k).2 r).buffer.free
          = r.buffer.free - 32 := by
        have := renderBlocks_free E rng cutoff 1 k r
        simpa [renderBlocks] using this
      have hdiv : r.buffer.free / 32 = (r.buffer.free - 32) / 32 + 1 := by omega
      rw [ih (k + 1) _ (by rw [hfree]; omega), hfree, hdiv]
      rfl
    · rw [if_neg hw]
      have hw2 : r.buffer.free < 32 := by
        have : ¬ (32 ≤ r.buffer.free) := hw
        omega
      have h0 : r.buffer.free / 32 = 0 := by omega
      rw [h0]
      rfl

theorem renderTicks_lengths (E : Resources) (cutoff n : Nat) :
    ∀ (noise : Nat) (r : RenderState),
      (renderTicks E cutoff n noise r).buffer.pushed.length = r.buffer.pushed.length + n ∧
      (renderTicks E cutoff n noise r).synth.CFBuffer.pushed.length =
        r.synth.CFBuffer.pushed.length + n := by
  induction n with
  | zero => intro noise r; exact ⟨rfl, rfl⟩
  | succ n ih =>
    intro noise r
    unfold renderTicks
    simp only []
    obtain ⟨h1, h2⟩ := ih (renderTick E cutoff r.synth.sample_rate_ r.synth.patch_
        r.synth.state_ ⟨r.sample, r.sample_counter, noise⟩).locals.noise
      { synth := { r.synth with
          state_ := (renderTick E cutoff r.synth.sample_rate_ r.synth.patch_ r.synth.state_
            ⟨r.sample, r.sample_counter, noise⟩).state_,
          CFBuffer := r.synth.CFBuffer.Overwrite
            (renderTick E cutoff r.synth.sample_rate_ r.synth.patch_ r.synth.state_
              ⟨r.sample, r.sample_counter, noise⟩).cf },
        buffer := r.buffer.Overwrite
          (renderTick E cutoff r.synth.sample_rate_ r.synth.patch_ r.synth.state_
            ⟨r.sample, r.sample_counter, noise⟩).sample,
        sample := (renderTick E cutoff r.synth.sample_rate_ r.synth.patch_ r.synth.state_
          ⟨r.sample, r.sample_counter, noise⟩).locals.sample,
        sample_counter := (renderTick E cutoff r.synth.sample_rate_ r.synth.patch_
          r.synth.state_ ⟨r.sample, r.sample_counter, noise⟩).locals.sample_counter }
    rw [h1, h2]
    simp only [RingBuffer.Overwrite, List.length_append, List.length_singleton]
    omega

theorem renderBlocks_lengths (E : Resources) (rng : Nat → Nat × Nat) (cutoff n : Nat) :
    ∀ (k : Nat) (r : RenderState),
      (renderBlocks E rng cutoff n k r).buffer.pushed.length = r.buffer.pushed.length + 32 * n ∧
      (renderBlocks E rng cutoff n k r).synth.CFBuffer.pushed.length =
        r.synth.CFBuffer.pushed.length + 32 * n := by
  induction n with
  | zero => intro k r; exact ⟨rfl, rfl⟩
  | succ n ih =>
    intro k r
    unfold renderBlocks
    obtain ⟨h1, h2⟩ := ih (k + 1) (renderBlock E cutoff (rng k).1 (rng k).2 r)
    obtain ⟨t1, t2⟩ := renderTicks_lengths E cutoff 32 (u8 (rng k).2)
      { r with synth := r.synth.UpdateModulations E (rng k).1 }
    have b1 : (renderBlock E cutoff (rng k).1 (rng k).2 r).buffer.pushed.length
        = r.buffer.pushed.length + 32 := t1
    have b2 : (renderBlock E cutoff (rng k).1 (rng k).2 r).synth.CFBuffer.pushed.length
        = r.synth.CFBuffer.pushed.length + 32 := t2
    rw [h1, h2, b1, b2]
    omega

theorem renderTicks_fixed (E : Resources) (cutoff n : Nat) :
    ∀ (noise : Nat) (r : RenderState),
      (renderTicks E cutoff n noise r).synth.patch_ = r.synth.patch_ ∧
      (renderTicks E cutoff n noise r).synth.sample_rate_ = r.synth.sample_rate_ ∧
      (renderTicks E cutoff n noise r).synth.last_event_time_ = r.synth.last_event_time_ := by
  induction n with
  | zero => intro noise r; exact ⟨rfl, rfl, rfl⟩
  | succ n ih =>
    intro noise r
    unfold renderTicks
    simp only []
    obtain ⟨h1, h2, h3⟩ := ih (renderTick E cutoff r.synth.sample_rate_ r.synth.patch_
        r.synth.state_ ⟨r.sample, r.sample_counter, noise⟩).locals.noise
      { synth := { r.synth with
          state_ := (renderTick E cutoff r.synth.sample_rate_ r.synth.patch_ r.synth.state_
            ⟨r.sample, r.sample_counter, noise⟩).state_,
          CFBuffer := r.synth.CFBuffer.Overwrite
            (renderTick E cutoff r.synth.sample_rate_ r.synth.patch_ r.synth.state_
              ⟨r.sample, r.sample_counter, noise⟩).cf },
        buffer := r.buffer.Overwrite
          (renderTick E cutoff r.synth.sample_rate_ r.synth.patch_ r.synth.state_
            ⟨r.sample, r.sample_counter, noise⟩).sample,
        sample := (renderTick E cutoff r.synth.sample_rate_ r.synth.patch_ r.synth.state_
          ⟨r.sample, r.sample_counter, noise⟩).locals.sample,
        sample_counter := (renderTick E cutoff r.synth.sample_rate_ r.synth.patch_
          r.synth.state_ ⟨r.sample, r.sample_counter, noise⟩).locals.sample_counter }
    exact ⟨h1, h2, h3⟩

theorem renderBlock_fixed (E : Resources) (cutoff rnd msb : Nat) (r : RenderState) :
    (renderBlock E cutoff rnd msb r).synth.patch_ = r.synth.patch_ ∧
    (renderBlock E cutoff rnd msb r).synth.sample_rate_ = r.synth.sample_rate_ ∧
    (renderBlock E cutoff rnd msb r).synth.last_event_time_ = r.synth.last_event_time_ :=
  renderTicks_fixed E cutoff 32 (u8 msb) { r with synth := r.synth.UpdateModulations E rnd }

theorem renderBlocks_fixed (E : Resources) (rng : Nat → Nat × Nat) (cutoff n : Nat) :
    ∀ (k : Nat) (r : RenderState),
      (renderBlocks E rng cutoff n k r).synth.patch_ = r.synth.patch_ ∧
      (renderBlocks E rng cutoff n k r).synth.sample_rate_ = r.synth.sample_rate_ ∧
      (renderBlocks E rng cutoff n k r).synth.last_event_time_ = r.synth.last_event_time_ := by
  induction n with
  | zero => intro k r; exact ⟨rfl, rfl, rfl⟩
  | succ n ih =>
    intro k r
    unfold renderBlocks
    obtain ⟨h1, h2, h3⟩ := ih (k + 1) (renderBlock E cutoff (rng k).1 (rng k).2 r)
    obtain ⟨b1, b2, b3⟩ := renderBlock_fixed E cutoff (rng k).1 (rng k).2 r
    exact ⟨h1.trans b1, h2.trans b2, h3.trans b3⟩

theorem renderBlocks_succ (E : Resources) (rng : Nat → Nat × Nat) (cutoff n k : Nat)
    (r : RenderState) :
    renderBlocks E rng cutoff (n + 1) k r =
      renderBlocks E rng cutoff n (k + 1) (renderBlock E cutoff (rng k).1 (rng k).2 r) := rfl

theorem renderBlocks_add (E : Resources) (rng : Nat → Nat × Nat) (cutoff m n : Nat) :
    ∀ (k : Nat) (r : RenderState),
      renderBlocks E rng cutoff (m + n) k r =
        renderBlocks E rng cutoff n (k + m) (renderBlocks E rng cutoff m k r) := by
  induction m with
  | zero => intro k r; simp [renderBlocks]
  | succ m ih =>
    intro k r
    have e : m + 1 + n = (m + n) + 1 := by omega
    have e2 : k + 1 + m = k + (m + 1) := by omega
    rw [e, renderBlocks_succ, ih (k + 1), e2]
    rfl

theorem renderBlocks_shift (E : Resources) (rng : Nat → Nat × Nat) (cutoff m n : Nat) :
    ∀ (k : Nat) (r : RenderState),
      renderBlocks E (fun j => rng (j + m)) cutoff n k r =
        renderBlocks E rng cutoff n (k + m) r := by
  induction n with
  | zero => intro k r; rfl
  | succ n ih =>
    intro k r
    have e2 : k + 1 + m = k + m + 1 := by omega
    rw [renderBlocks_succ, ih (k + 1), e2, renderBlocks_succ]

theorem Render_eq_renderBlocks (E : Resources) (rng : Nat → Nat × Nat) (now cutoff : Nat)
    (buffer : RingBuffer) (instruments : Nat) (s : DrumSynth)
    (h : s.idle_time_ms now ≤ 300000) :
    s.Render E rng now cutoff buffer instruments =
      ({ (renderBlocks E rng cutoff (buffer.free / 32) 0
            ⟨s, buffer, s.sample_, s.sample_counter_⟩).synth with
          sample_ := (renderBlocks E rng cutoff (buffer.free / 32) 0
            ⟨s, buffer, s.sample_, s.sample_counter_⟩).sample,
          sample_counter_ := (renderBlocks E rng cutoff (buffer.free / 32) 0
            ⟨s, buffer, s.sample_, s.sample_counter_⟩).sample_counter },
       (renderBlocks E rng cutoff (buffer.free / 32) 0
            ⟨s, buffer, s.sample_, s.sample_counter_⟩).buffer) := by
  have hn : ¬ s.idle_time_ms now > 300000 := by omega
  unfold DrumSynth.Render
  rw [if_neg hn]
  have hl := renderLoop_eq_renderBlocks E rng cutoff buffer.writable 0
    ⟨s, buffer, s.sample_, s.sample_counter_⟩
    (by show buffer.free / 32 ≤ buffer.free; exact Nat.div_le_self _ _)
  simp only [hl]

/-- C16: a non-idle `Render` on a buffer with `w` free slots runs the loop body
exactly `w / 32` times, whatever fuel of at least `w / 32` the loop is given,
each pass being one `UpdateModulations` call followed by 32 samples; it pushes
`32 * (w / 32)` samples to the caller's buffer and as many to the cutoff buffer,
and returns with fewer than 32 free slots; with `w < 32` it pushes nothing and
changes no state. -/
theorem Render_block_count (E : Resources) (rng : Nat → Nat × Nat) (now cutoff : Nat)
    (buffer : RingBuffer) (instruments : Nat) (s : DrumSynth)
    (h : s.idle_time_ms now ≤ 300000) :
    (∀ fuel, buffer.writable / 32 ≤ fuel →
      renderLoop E rng cutoff fuel 0 ⟨s, buffer, s.sample_, s.sample_counter_⟩ =
        renderBlocks E rng cutoff (buffer.writable / 32) 0
          ⟨s, buffer, s.sample_, s.sample_counter_⟩) ∧
    s.Render E rng now cutoff buffer instruments =
      ({ (renderBlocks E rng cutoff (buffer.writable / 32) 0
            ⟨s, buffer, s.sample_, s.sample_counter_⟩).synth with
          sample_ := (renderBlocks E rng cutoff (buffer.writable / 32) 0
            ⟨s, buffer, s.sample_, s.sample_counter_⟩).sample,
          sample_counter_ := (renderBlocks E rng cutoff (buffer.writable / 32) 0
            ⟨s, buffer, s.sample_, s.sample_counter_⟩).sample_counter },
       (renderBlocks E rng cutoff (buffer.writable / 32) 0
            ⟨s, buffer, s.sample_, s.sample_counter_⟩).buffer) ∧
    (∀ rnd msb r, renderBlock E cutoff rnd msb r =
      renderTicks E cutoff 32 (u8 msb) { r with synth := r.synth.UpdateModulations E rnd }) ∧
    (s.Render E rng now cutoff buffer instruments).2.pushed.length =
      buffer.pushed.length + 32 * (buffer.writable / 32) ∧
    (s.Render E rng now cutoff buffer instruments).1.CFBuffer.pushed.length =
      s.CFBuffer.pushed.length + 32 * (buffer.writable / 32) ∧
    (s.Render E rng now cutoff buffer instruments).2.writable =
      buffer.writable - 32 * (buffer.writable / 32) ∧
    (s.Render E rng now cutoff buffer instruments).2.writable < 32 ∧
    (buffer.writable < 32 → s.Render E rng now cutoff buffer instruments = (s, buffer)) := by
  have hR := Render_eq_renderBlocks E rng now cutoff buffer instruments s h
  have hlen := renderBlocks_lengths E rng cutoff (buffer.free / 32) 0
    ⟨s, buffer, s.sample_, s.sample_counter_⟩
  have hfree := renderBlocks_free E rng cutoff (buffer.free / 32) 0
    ⟨s, buffer, s.sample_, s.sample_counter_⟩
  refine ⟨fun fuel hf => renderLoop_eq_renderBlocks E rng cutoff fuel 0 _ hf, hR,
    fun _ _ _ => rfl, ?_, ?_, ?_, ?_, ?_⟩
  · rw [hR]; exact hlen.1
  · rw [hR]; exact hlen.2
  · rw [hR]; exact hfree
  · rw [hR]
    show (renderBlocks E rng cutoff (buffer.free / 32) 0
      ⟨s, buffer, s.sample_, s.sample_counter_⟩).buffer.free < 32
    rw [hfree]
    show buffer.free - 32 * (buffer.free / 32) < 32
    omega
  · intro hw
    have h0 : buffer.free / 32 = 0 := by
      have : buffer.free < 32 := hw
      omega
    rw [hR, h0]
    rfl

/-- C16, at a concrete input: the playing state rendered into a buffer with 70
free slots: two blocks. -/
theorem Render_block_count_witness :
    DrumSynth.playing.idle_time_ms 2000 ≤ 300000 ∧
    (DrumSynth.playing.Render Resources.ramp (fun k => (k, k)) 2000 77 ⟨[], 70⟩ 7).2.pushed.length
      = 0 + 32 * (70 / 32) ∧
    (DrumSynth.playing.Render Resources.ramp (fun k => (k, k)) 2000 77
      ⟨[], 70⟩ 7).1.CFBuffer.pushed.length = 0 + 32 * (70 / 32) ∧
    (DrumSynth.playing.Render Resources.ramp (fun k => (k, k)) 2000 77 ⟨[], 70⟩ 7).2.writable
      = 70 - 32 * (70 / 32) :=
  have h := Render_block_count Resources.ramp (fun k => (k, k)) 2000 77 ⟨[], 70⟩ 7
    DrumSynth.playing (by decide)
  ⟨by decide, h.2.2.2.1, h.2.2.2.2.1, h.2.2.2.2.2.1⟩

/-- C15: with the clock non-idle at each call, a `Render` call that produces
`m + n` blocks leaves the same static data (voice states, `sample_`,
`sample_counter_`, cutoff buffer) and the same sample sequence in the caller's
buffer as a call that produces `m` blocks followed by a call that produces `n`
blocks on the same buffer contents, the second call continuing the stream of
the random source. -/
theorem Render_split (E : Resources) (rng : Nat → Nat × Nat) (cutoff instruments : Nat)
    (s : DrumSynth) (b b1 : RingBuffer) (m n now now1 now2 w2 : Nat)
    (hb : b.writable / 32 = m + n) (hp : b1.pushed = b.pushed) (hm : b1.writable / 32 = m)
    (hn : w2 / 32 = n) (h0 : s.idle_time_ms now ≤ 300000) (h1 : s.idle_time_ms now1 ≤ 300000)
    (h2 : s.idle_time_ms now2 ≤ 300000) :
    ((s.Render E rng now1 cutoff b1 instruments).1.Render E (fun k => rng (k + m)) now2 cutoff
        ⟨(s.Render E rng now1 cutoff b1 instruments).2.pushed, w2⟩ instruments).1 =
      (s.Render E rng now cutoff b instruments).1 ∧
    ((s.Render E rng now1 cutoff b1 instruments).1.Render E (fun k => rng (k + m)) now2 cutoff
        ⟨(s.Render E rng now1 cutoff b1 instruments).2.pushed, w2⟩ instruments).2.pushed =
      (s.Render E rng now cutoff b instruments).2.pushed := by
  have hb' : b.free / 32 = m + n := hb
  have hm' : b1.free / 32 = m := hm
  -- the single call
  have one := Render_eq_renderBlocks E rng now cutoff b instruments s h0
  rw [hb', renderBlocks_add, Nat.zero_add] at one
  -- the first call of the pair
  have first := Render_eq_renderBlocks E rng now1 cutoff b1 instruments s h1
  have hinit : (⟨s, b1, s.sample_, s.sample_counter_⟩ : RenderState) =
      (⟨s, b, s.sample_, s.sample_counter_⟩ : RenderState).reframe b1.free s.sample_
        s.sample_counter_ := by
    cases b1
    cases b
    simp only [RenderState.reframe] at hp ⊢
    cases hp
    rfl
  rw [hm', hinit, renderBlocks_reframe] at first
  generalize renderBlocks E rng cutoff m 0 ⟨s, b, s.sample_, s.sample_counter_⟩ = X at one first
  -- the second call of the pair
  have hlast : (s.Render E rng now1 cutoff b1 instruments).1.idle_time_ms now2 ≤ 300000 := by
    have e : (s.Render E rng now1 cutoff b1 instruments).1.last_event_time_
        = s.last_event_time_ := by
      have hx := Render_eq_renderBlocks E rng now1 cutoff b1 instruments s h1
      rw [hx]
      exact (renderBlocks_fixed E rng cutoff (b1.free / 32) 0
        ⟨s, b1, s.sample_, s.sample_counter_⟩).2.2
    unfold DrumSynth.idle_time_ms at h2 ⊢
    rw [e]
    exact h2
  have second := Render_eq_renderBlocks E (fun k => rng (k + m)) now2 cutoff
    ⟨(s.Render E rng now1 cutoff b1 instruments).2.pushed, w2⟩ instruments
    (s.Render E rng now1 cutoff b1 instruments).1 hlast
  rw [second, one]
  simp only [hn]
  rw [first]
  have hX : (⟨{ (X.reframe (b1.free - 32 * m) s.sample_ s.sample_counter_).synth with
        sample_ := (X.reframe (b1.free - 32 * m) s.sample_ s.sample_counter_).sample,
        sample_counter_ :=
          (X.reframe (b1.free - 32 * m) s.sample_ s.sample_counter_).sample_counter },
      ⟨(X.reframe (b1.free - 32 * m) s.sample_ s.sample_counter_).buffer.pushed, w2⟩,
      (X.reframe (b1.free - 32 * m) s.sample_ s.sample_counter_).sample,
      (X.reframe (b1.free - 32 * m) s.sample_ s.sample_counter_).sample_counter⟩ : RenderState)
      = X.reframe w2 X.sample X.sample_counter := rfl
  simp only []
  rw [hX, renderBlocks_reframe, renderBlocks_shift, Nat.zero_add]
  exact ⟨rfl, rfl⟩

/-- C15, at a concrete input: the playing state rendered for two blocks at once,
and for one block twice. -/
theorem Render_split_witness :
    ((DrumSynth.playing.Render Resources.ramp sampleDraws 2000 77 ⟨[5], 35⟩ 7).1.Render
        Resources.ramp (fun k => sampleDraws (k + 1)) 3000 77
        ⟨(DrumSynth.playing.Render Resources.ramp sampleDraws 2000 77 ⟨[5], 35⟩ 7).2.pushed, 40⟩
        7).1 =
      (DrumSynth.playing.Render Resources.ramp sampleDraws 2500 77 ⟨[5], 64⟩ 7).1 ∧
    ((DrumSynth.playing.Render Resources.ramp sampleDraws 2000 77 ⟨[5], 35⟩ 7).1.Render
        Resources.ramp (fun k => sampleDraws (k + 1)) 3000 77
        ⟨(DrumSynth.playing.Render Resources.ramp sampleDraws 2000 77 ⟨[5], 35⟩ 7).2.pushed, 40⟩
        7).2.pushed =
      (DrumSynth.playing.Render Resources.ramp sampleDraws 2500 77 ⟨[5], 64⟩ 7).2.pushed :=
  Render_split Resources.ramp sampleDraws 77 7 DrumSynth.playing ⟨[5], 64⟩ ⟨[5], 35⟩
    1 1 2500 2000 3000 40 (by decide) rfl (by decide) (by decide) (by decide) (by decide)
    (by decide)

/-! ## Render: decimation -/

theorem Held_append (d : Nat) (o1 o2 : List Nat) :
    ∀ (c p c1 p1 c2 p2 : Nat), Held d c p o1 c1 p1 → Held d c1 p1 o2 c2 p2 →
      Held d c p (o1 ++ o2) c2 p2 := by
  induction o1 with
  | nil =>
    intro c p c1 p1 c2 p2 h1 h2
    obtain ⟨rfl, rfl⟩ := h1
    exact h2
  | cons x xs ih =>
    intro c p c1 p1 c2 p2 h1 h2
    exact ⟨h1.1, ih _ _ _ _ _ _ h1.2 h2⟩

theorem Held_counter (d : Nat) (out : List Nat) :
    ∀ (c p c1 p1 : Nat), Held d c p out c1 p1 → c ≤ d →
      c1 = (c + out.length) % (d + 1) ∧ p1 = out.getLastD p := by
  induction out with
  | nil =>
    intro c p c1 p1 h hc
    obtain ⟨rfl, rfl⟩ := h
    exact ⟨(Nat.mod_eq_of_lt (by simpa using Nat.lt_succ_of_le hc)).symm, rfl⟩
  | cons x xs ih =>
    intro c p c1 p1 h hc
    have hlt : (c + 1) % (d + 1) ≤ d := Nat.lt_succ_iff.mp (Nat.mod_lt _ (Nat.succ_pos d))
    obtain ⟨e1, e2⟩ := ih _ _ _ _ h.2 hlt
    constructor
    · rw [e1, Nat.mod_add_mod, List.length_cons]
      congr 1
      omega
    · rw [e2]
      cases xs <;> rfl

theorem Held_index (d : Nat) (out : List Nat) :
    ∀ (c p c1 p1 : Nat), Held d c p out c1 p1 →
      ∀ t, t < out.length → (c + t + 1) % (d + 1) ≠ 0 →
        out.getD t 0 = (p :: out).getD t 0 := by
  induction out with
  | nil =>
    intro c p c1 p1 _ t ht
    exact absurd ht (by simp)
  | cons x xs ih =>
    intro c p c1 p1 h t ht hne
    cases t with
    | zero =>
      have := h.1 (by simpa using hne)
      simp [this]
    | succ t =>
      have ht2 : t < xs.length := by simpa using ht
      have hne2 : ((c + 1) % (d + 1) + t + 1) % (d + 1) ≠ 0 := by
        have e : ((c + 1) % (d + 1) + t + 1) % (d + 1) = (c + (t + 1) + 1) % (d + 1) := by
          rw [Nat.add_assoc, Nat.mod_add_mod]
          congr 1
          omega
        rw [e]
        exact hne
      have := ih _ _ _ _ h.2 t ht2 hne2
      simpa using this

theorem renderTick_decimation (E : Resources) (cutoff d : Nat) (patch_ : Slots DrumPatch)
    (state_ : Slots DrumState) (l : Locals) (hc : l.sample_counter ≤ d) (hd : d ≤ 254) :
    (renderTick E cutoff d patch_ state_ l).locals.sample_counter
      = (l.sample_counter + 1) % (d + 1) ∧
    (renderTick E cutoff d patch_ state_ l).locals.sample_counter ≤ d ∧
    (renderTick E cutoff d patch_ state_ l).sample
      = (renderTick E cutoff d patch_ state_ l).locals.sample ∧
    ((l.sample_counter + 1) % (d + 1) = 0 →
      (renderTick E cutoff d patch_ state_ l).sample =
        u8 (clamp255 (renderVoices E (u8 (l.noise * 73 + 1)) patch_ state_
          ⟨s16 128, s16 (u8 cutoff)⟩).2.mix).toNat) ∧
    ((l.sample_counter + 1) % (d + 1) ≠ 0 →
      (renderTick E cutoff d patch_ state_ l).sample = l.sample) ∧
    (l.sample ≤ 255 → (renderTick E cutoff d patch_ state_ l).sample ≤ 255) := by
  have hu : u8 (l.sample_counter + 1) = l.sample_counter + 1 := u8_of_lt (by omega)
  unfold renderTick
  simp only [hu]
  by_cases h : l.sample_counter = d
  · have hgt : l.sample_counter + 1 > d := by omega
    have hmod : (l.sample_counter + 1) % (d + 1) = 0 := by rw [h]; exact Nat.mod_self _
    rw [if_pos hgt, hmod]
    have hb := u8_lt (clamp255 (renderVoices E (u8 (l.noise * 73 + 1)) patch_ state_
          ⟨s16 128, s16 (u8 cutoff)⟩).2.mix).toNat
    refine ⟨?_, ?_, ?_, ?_, ?_, ?_⟩
    · trivial
    · exact Nat.zero_le _
    · trivial
    · intro _; trivial
    · intro hne; exact absurd rfl hne
    · intro _
      show u8 _ ≤ 255
      omega
  · have hgt : ¬ l.sample_counter + 1 > d := by omega
    have hmod : (l.sample_counter + 1) % (d + 1) = l.sample_counter + 1 :=
      Nat.mod_eq_of_lt (by omega)
    rw [if_neg hgt, hmod]
    refine ⟨?_, ?_, ?_, ?_, ?_, ?_⟩
    · trivial
    · show l.sample_counter + 1 ≤ d
      omega
    · trivial
    · intro h0; exact absurd h0 (by omega)
    · intro _; trivial
    · intro hs; exact hs

theorem renderTicks_held (E : Resources) (cutoff n : Nat) :
    ∀ (noise : Nat) (r : RenderState), r.sample_counter ≤ r.synth.sample_rate_ →
      r.synth.sample_rate_ ≤ 254 → r.sample ≤ 255 →
      ∃ out, (renderTicks E cutoff n noise r).buffer.pushed = r.buffer.pushed ++ out ∧
        out.length = n ∧
        Held r.synth.sample_rate_ r.sample_counter r.sample out
          (renderTicks E cutoff n noise r).sample_counter (renderTicks E cutoff n noise r).sample ∧
        (renderTicks E cutoff n noise r).sample_counter ≤ r.synth.sample_rate_ ∧
        (renderTicks E cutoff n noise r).sample ≤ 255 := by
  induction n with
  | zero =>
    intro noise r hc hd hs
    exact ⟨[], by simp [renderTicks], rfl, ⟨rfl, rfl⟩, hc, hs⟩
  | succ n ih =>
    intro noise r hc hd hs
    obtain ⟨t1, t2, t3, _, t5, t6⟩ := renderTick_decimation E cutoff r.synth.sample_rate_
      r.synth.patch_ r.synth.state_ ⟨r.sample, r.sample_counter, noise⟩ hc hd
    have hstep : renderTicks E cutoff (n + 1) noise r =
        renderTicks E cutoff n
          (renderTick E cutoff r.synth.sample_rate_ r.synth.patch_ r.synth.state_
            ⟨r.sample, r.sample_counter, noise⟩).locals.noise
          { synth := { r.synth with
              state_ := (renderTick E cutoff r.synth.sample_rate_ r.synth.patch_ r.synth.state_
                ⟨r.sample, r.sample_counter, noise⟩).state_,
              CFBuffer := r.synth.CFBuffer.Overwrite
                (renderTick E cutoff r.synth.sample_rate_ r.synth.patch_ r.synth.state_
                  ⟨r.sample, r.sample_counter, noise⟩).cf },
            buffer := r.buffer.Overwrite
              (renderTick E cutoff r.synth.sample_rate_ r.synth.patch_ r.synth.state_
                ⟨r.sample, r.sample_counter, noise⟩).sample,
            sample := (renderTick E cutoff r.synth.sample_rate_ r.synth.patch_ r.synth.state_
              ⟨r.sample, r.sample_counter, noise⟩).locals.sample,
            sample_counter := (renderTick E cutoff r.synth.sample_rate_ r.synth.patch_
              r.synth.state_ ⟨r.sample, r.sample_counter, noise⟩).locals.sample_counter } := rfl
    rw [hstep]
    generalize renderTick E cutoff r.synth.sample_rate_ r.synth.patch_ r.synth.state_
      ⟨r.sample, r.sample_counter, noise⟩ = t at t1 t2 t3 t5 t6 ⊢
    simp only [] at t1 t2 t3 t5 t6
    have hts : t.sample ≤ 255 := t6 hs
    obtain ⟨out, h1, h2, h3, h4, h5⟩ := ih t.locals.noise
      { synth := { r.synth with state_ := t.state_,
                                CFBuffer := r.synth.CFBuffer.Overwrite t.cf },
        buffer := r.buffer.Overwrite t.sample,
        sample := t.locals.sample,
        sample_counter := t.locals.sample_counter } t2 hd (by rw [← t3]; exact hts)
    simp only [] at h1 h3 h4 h5
    refine ⟨t.sample :: out, ?_, by simp [h2], ?_, h4, h5⟩
    · rw [h1]
      simp only [RingBuffer.Overwrite, u8_of_lt (show t.sample < 256 by omega),
        List.append_assoc, List.singleton_append]
    · refine ⟨?_, ?_⟩
      · intro hne
        exact t5 hne
      · have key : ∀ X Y, Held r.synth.sample_rate_ t.locals.sample_counter t.locals.sample
            out X Y →
            Held r.synth.sample_rate_ ((r.sample_counter + 1) % (r.synth.sample_rate_ + 1))
              t.sample out X Y := by
          intro X Y hh
          rw [← t1, t3]
          exact hh
        exact key _ _ h3

theorem renderBlocks_held (E : Resources) (rng : Nat → Nat × Nat) (cutoff n : Nat) :
    ∀ (k : Nat) (r : RenderState), r.sample_counter ≤ r.synth.sample_rate_ →
      r.synth.sample_rate_ ≤ 254 → r.sample ≤ 255 →
      ∃ out, (renderBlocks E rng cutoff n k r).buffer.pushed = r.buffer.pushed ++ out ∧
        out.length = 32 * n ∧
        Held r.synth.sample_rate_ r.sample_counter r.sample out
          (renderBlocks E rng cutoff n k r).sample_counter
          (renderBlocks E rng cutoff n k r).sample ∧
        (renderBlocks E rng cutoff n k r).sample_counter ≤ r.synth.sample_rate_ ∧
        (renderBlocks E rng cutoff n k r).sample ≤ 255 := by
  induction n with
  | zero =>
    intro k r hc hd hs
    exact ⟨[], by simp [renderBlocks], rfl, ⟨rfl, rfl⟩, hc, hs⟩
  | succ n ih =>
    intro k r hc hd hs
    rw [renderBlocks_succ]
    obtain ⟨o1, a1, a2, a3, a4, a5⟩ := renderTicks_held E cutoff 32 (u8 (rng k).2)
      { r with synth := r.synth.UpdateModulations E (rng k).1 } hc hd hs
    have hrate := (renderBlock_fixed E cutoff (rng k).1 (rng k).2 r).2.1
    change (renderBlock E cutoff (rng k).1 (rng k).2 r).buffer.pushed = r.buffer.pushed ++ o1
      at a1
    change Held r.synth.sample_rate_ r.sample_counter r.sample o1
      (renderBlock E cutoff (rng k).1 (rng k).2 r).sample_counter
      (renderBlock E cutoff (rng k).1 (rng k).2 r).sample at a3
    change (renderBlock E cutoff (rng k).1 (rng k).2 r).sample_counter ≤ r.synth.sample_rate_
      at a4
    change (renderBlock E cutoff (rng k).1 (rng k).2 r).sample ≤ 255 at a5
    obtain ⟨o2, b1, b2, b3, b4, b5⟩ := ih (k + 1) (renderBlock E cutoff (rng k).1 (rng k).2 r)
      (by rw [hrate]; exact a4) (by rw [hrate]; exact hd) a5
    rw [hrate] at b3 b4
    refine ⟨o1 ++ o2, ?_, ?_, Held_append _ _ _ _ _ _ _ _ _ a3 b3, b4, b5⟩
    · rw [b1, a1, List.append_assoc]
    · rw [List.length_append, a2, b2]
      omega

/-- C13: in a non-idle `Render` with divisor `d = sample_rate_ ≤ 31` and starting
counter `c = sample_counter_ ≤ d`, the sample pushed by tick `t + 1` is the one
pushed before it unless `(c + t + 1) % (d + 1) = 0`, so that from `c = 0` the
pushed value changes only at the ticks that are multiples of `d + 1`; the
counter after the call is `(c + number of ticks) % (d + 1)` and `sample_` is the
last sample pushed.  A tick started with the counter at `c1 ≤ d` leaves the
counter at `(c1 + 1) % (d + 1) ≤ d`, commits the clamped mix exactly when that is
0 and holds the sample otherwise, and advances the phase of every voice by its
`phase_increment`; and the counter reached after `nb` blocks and `n` more ticks
is `(c + 32 * nb + n) % (d + 1)`. -/
theorem Render_decimation (E : Resources) (rng : Nat → Nat × Nat) (now cutoff : Nat)
    (buffer : RingBuffer) (instruments : Nat) (s : DrumSynth)
    (hidle : s.idle_time_ms now ≤ 300000) (hd : s.sample_rate_ ≤ 31)
    (hc : s.sample_counter_ ≤ s.sample_rate_) (hs : s.sample_ ≤ 255) :
    (∃ out, (s.Render E rng now cutoff buffer instruments).2.pushed = buffer.pushed ++ out ∧
      out.length = 32 * (buffer.writable / 32) ∧
      (∀ t, t < out.length → (s.sample_counter_ + t + 1) % (s.sample_rate_ + 1) ≠ 0 →
        out.getD t 0 = (s.sample_ :: out).getD t 0) ∧
      (s.sample_counter_ = 0 → ∀ t, t < out.length →
        out.getD t 0 ≠ (s.sample_ :: out).getD t 0 → (t + 1) % (s.sample_rate_ + 1) = 0) ∧
      (s.Render E rng now cutoff buffer instruments).1.sample_counter_ =
        (s.sample_counter_ + out.length) % (s.sample_rate_ + 1) ∧
      (s.Render E rng now cutoff buffer instruments).1.sample_counter_ ≤ s.sample_rate_ ∧
      (s.Render E rng now cutoff buffer instruments).1.sample_ = out.getLastD s.sample_ ∧
      (s.Render E rng now cutoff buffer instruments).1.sample_rate_ = s.sample_rate_) ∧
    (∀ (patch_ : Slots DrumPatch) (state_ : Slots DrumState) (l : Locals),
      l.sample_counter ≤ s.sample_rate_ →
      (renderTick E cutoff s.sample_rate_ patch_ state_ l).locals.sample_counter
        = (l.sample_counter + 1) % (s.sample_rate_ + 1) ∧
      (renderTick E cutoff s.sample_rate_ patch_ state_ l).locals.sample_counter
        ≤ s.sample_rate_ ∧
      ((l.sample_counter + 1) % (s.sample_rate_ + 1) = 0 →
        (renderTick E cutoff s.sample_rate_ patch_ state_ l).sample =
          u8 (clamp255 (renderVoices E (u8 (l.noise * 73 + 1)) patch_ state_
            ⟨s16 128, s16 (u8 cutoff)⟩).2.mix).toNat) ∧
      ((l.sample_counter + 1) % (s.sample_rate_ + 1) ≠ 0 →
        (renderTick E cutoff s.sample_rate_ patch_ state_ l).sample = l.sample) ∧
      (renderTick E cutoff s.sample_rate_ patch_ state_ l).state_ =
        ⟨{ state_.s0 with phase := u16 (state_.s0.phase + state_.s0.phase_increment) },
         { state_.s1 with phase := u16 (state_.s1.phase + state_.s1.phase_increment) },
         { state_.s2 with phase := u16 (state_.s2.phase + state_.s2.phase_increment) }⟩) ∧
    (∀ nb n,
      (renderTicks E cutoff n (u8 (rng nb).2)
        { renderBlocks E rng cutoff nb 0 ⟨s, buffer, s.sample_, s.sample_counter_⟩ with
          synth := (renderBlocks E rng cutoff nb 0
            ⟨s, buffer, s.sample_, s.sample_counter_⟩).synth.UpdateModulations E
              (rng nb).1 }).sample_counter
        = (s.sample_counter_ + 32 * nb + n) % (s.sample_rate_ + 1)) := by
  have hd2 : s.sample_rate_ ≤ 254 := by omega
  refine ⟨?_, ?_, ?_⟩
  · have hR := Render_eq_renderBlocks E rng now cutoff buffer instruments s hidle
    obtain ⟨out, h1, h2, h3, h4, _⟩ := renderBlocks_held E rng cutoff (buffer.free / 32) 0
      ⟨s, buffer, s.sample_, s.sample_counter_⟩ hc hd2 hs
    have hrate := (renderBlocks_fixed E rng cutoff (buffer.free / 32) 0
      ⟨s, buffer, s.sample_, s.sample_counter_⟩).2.1
    simp only [] at h1 h3 h4 hrate
    obtain ⟨k1, k2⟩ := Held_counter _ _ _ _ _ _ h3 hc
    have hidx := Held_index _ _ _ _ _ _ h3
    refine ⟨out, ?_, h2, hidx, ?_, ?_, ?_, ?_, ?_⟩
    · rw [hR]; exact h1
    · intro h0 t ht hne
      by_contra hmod
      apply hne
      apply hidx t ht
      rw [h0, Nat.zero_add]
      exact hmod
    · rw [hR]; exact k1
    · rw [hR]; exact h4
    · rw [hR]; exact k2
    · rw [hR]; exact hrate
  · intro patch_ state_ l hl
    obtain ⟨t1, t2, _, t4, t5, _⟩ :=
      renderTick_decimation E cutoff s.sample_rate_ patch_ state_ l hl hd2
    exact ⟨t1, t2, t4, t5, renderTick_state E cutoff s.sample_rate_ patch_ state_ l⟩
  · intro nb n
    obtain ⟨o1, _, a2, a3, a4, a5⟩ := renderBlocks_held E rng cutoff nb 0
      ⟨s, buffer, s.sample_, s.sample_counter_⟩ hc hd2 hs
    have hrate := (renderBlocks_fixed E rng cutoff nb 0
      ⟨s, buffer, s.sample_, s.sample_counter_⟩).2.1
    simp only [] at a3 a4 hrate
    obtain ⟨k1, _⟩ := Held_counter _ _ _ _ _ _ a3 hc
    obtain ⟨o2, _, b2, b3, _, _⟩ := renderTicks_held E cutoff n (u8 (rng nb).2)
      { renderBlocks E rng cutoff nb 0 ⟨s, buffer, s.sample_, s.sample_counter_⟩ with
        synth := (renderBlocks E rng cutoff nb 0
          ⟨s, buffer, s.sample_, s.sample_counter_⟩).synth.UpdateModulations E (rng nb).1 }
      (by show _ ≤ (renderBlocks E rng cutoff nb 0
            ⟨s, buffer, s.sample_, s.sample_counter_⟩).synth.sample_rate_
          rw [hrate]; exact a4)
      (by show (renderBlocks E rng cutoff nb 0
            ⟨s, buffer, s.sample_, s.sample_counter_⟩).synth.sample_rate_ ≤ 254
          rw [hrate]; exact hd2)
      a5
    change Held (renderBlocks E rng cutoff nb 0
        ⟨s, buffer, s.sample_, s.sample_counter_⟩).synth.sample_rate_ _ _ _ _ _ at b3
    rw [hrate] at b3
    obtain ⟨k2, _⟩ := Held_counter _ _ _ _ _ _ b3 a4
    rw [k2, k1, b2, a2, Nat.mod_add_mod]

/-- C13, at a concrete input: the playing state (divisor 3, counter 1) rendered
into a buffer with 40 free slots. -/
theorem Render_decimation_witness :
    (DrumSynth.playing.idle_time_ms 2000 ≤ 300000 ∧ DrumSynth.playing.sample_rate_ ≤ 31 ∧
      DrumSynth.playing.sample_counter_ ≤ DrumSynth.playing.sample_rate_ ∧
      DrumSynth.playing.sample_ ≤ 255) ∧
    ∃ out, (DrumSynth.playing.Render Resources.ramp sampleDraws 2000 77 ⟨[], 40⟩ 7).2.pushed
        = [] ++ out ∧
      out.length = 32 * (40 / 32) ∧
      (∀ t, t < out.length → (1 + t + 1) % (3 + 1) ≠ 0 →
        out.getD t 0 = (128 :: out).getD t 0) :=
  ⟨⟨by decide, by decide, by decide, by decide⟩,
    (Render_decimation Resources.ramp sampleDraws 2000 77 ⟨[], 40⟩ 7 DrumSynth.playing
      (by decide) (by decide) (by decide) (by decide)).1.imp
        fun _ h => ⟨h.1, h.2.1, h.2.2.1⟩⟩

/-! ## Patch operations with the header left open -/

theorem storeSix (m : Nat → Nat → Nat) (slot base : Nat) (f : Nat → Nat) (s o : Nat) :
    (List.range 6).foldl (fun q i => storeByte q slot (base + i) (f i)) m s o =
      if s = slot ∧ base ≤ o ∧ o < base + 6 then u8 (f (o - base)) else m s o := by
  have hr : List.range 6 = [0, 1, 2, 3, 4, 5] := rfl
  simp only [hr, List.foldl, storeByte]
  by_cases hs : s = slot
  · by_cases h5 : o = base + 5
    · subst h5; simp [hs]
    · by_cases h4 : o = base + 4
      · subst h4; simp [hs]
      · by_cases h3 : o = base + 3
        · subst h3; simp [hs]
        · by_cases h2 : o = base + 2
          · subst h2; simp [hs]
          · by_cases h1 : o = base + 1
            · subst h1; simp [hs]
            · by_cases h0 : o = base
              · subst h0; simp [hs]
              · have hn : ¬ (base ≤ o ∧ o < base + 6) := by omega
                simp [hs, h5, h4, h3, h2, h1, h0, hn]
  · simp [hs]

theorem LoadPatchAt_bytes (H : Header) (m : Nat → Nat → Nat) (i p : Nat) (a : List Nat)
    (hi : i < H.kNumDrumInstruments) (hok : H.ok) (ha : drum_presets[p]? = some a) :
    ∃ m1, LoadPatchAt H i p m = some m1 ∧
      ∀ s o, m1 s o =
        if s = i ∧ H.synth ≤ o ∧ o < H.synth + 6 then u8 (presetByte a (o - H.synth))
        else if s = i ∧ o = H.level then 255 else m s o := by
  have hcond : i < H.kNumDrumInstruments ∧ H.synth + 6 ≤ H.size ∧ H.level < H.size :=
    ⟨hi, hok.1, hok.2⟩
  refine ⟨_, by simp only [LoadPatchAt, if_pos hcond, ha]; rfl, ?_⟩
  intro s o
  rw [storeSix]
  split_ifs <;> simp_all [storeByte, u8]

/-- The six-field patch model is the header model at `Header.sixBytes`:
`DrumSynth.LoadPatch` and `LoadPatchAt` leave the same bytes. -/
theorem LoadPatch_agrees (s : DrumSynth) (i p : Nat) (hi : i < 3) (hp : p < 15) :
    ∃ s1 m1, s.LoadPatch i p = some s1 ∧
      LoadPatchAt (Header.sixBytes 3) i p (patchMem s.patch_) = some m1 ∧
      ∀ slot o, slot < 3 → o < 6 → m1 slot o = patchMem s1.patch_ slot o := by
  obtain ⟨q, a, y, hq, ha, _, hy, h⟩ := LoadPatch_eq s i p hi hp
  obtain ⟨m1, e, hb⟩ := LoadPatchAt_bytes (Header.sixBytes 3) (patchMem s.patch_) i p a
    (by exact hi) ⟨by decide, by decide⟩ ha
  refine ⟨_, m1, h, e, ?_⟩
  intro slot o hs ho
  rw [hb]
  simp only [Header.sixBytes, Nat.zero_le, true_and, Nat.zero_add, Nat.sub_zero]
  by_cases hsi : slot = i
  · subst hsi
    have hg := Slots.get?_set?_eq _ _ _ _ hy
    simp only [patchMem, hg, ho, and_self, if_true, copyPreset_eq, Option.map_some',
      Option.getD_some, DrumPatch.bytes]
    interval_cases o <;> simp [u8]
  · have hg := Slots.get?_set?_ne _ _ _ slot _ hy hsi
    simp only [patchMem, hsi, false_and, if_false, hg]

/-- Where the header puts `level` among the six bytes from `synth` on, the copy
loop of `LoadPatch` overwrites the 255 stored before it. -/
theorem LoadPatchAt_level_inside (H : Header) (m : Nat → Nat → Nat) (i p : Nat) (hok : H.ok)
    (hin : H.synth ≤ H.level ∧ H.level < H.synth + 6) (hi : i < H.kNumDrumInstruments)
    (hp : p < 15) :
    ∃ m1 a, LoadPatchAt H i p m = some m1 ∧ drum_presets[p]? = some a ∧
      m1 i H.level = a.getD (H.level - H.synth) 0 ∧ m1 i H.level ≠ 255 := by
  obtain ⟨a, ha, hmem⟩ := drum_presets_get hp
  obtain ⟨m1, h, hb⟩ := LoadPatchAt_bytes H m i p a hi hok ha
  have hk := presetByte_eq hmem (H.level - H.synth)
  have e : m1 i H.level = a.getD (H.level - H.synth) 0 := by
    rw [hb, if_pos ⟨rfl, hin.1, hin.2⟩, hk.1]
    exact u8_of_lt (by omega)
  exact ⟨m1, a, h, ha, e, by rw [e]; omega⟩

theorem LoadPatchAt_not_slot (H : Header) (m : Nat → Nat → Nat) (i p : Nat)
    (hi : H.kNumDrumInstruments ≤ i) : LoadPatchAt H i p m = none := by
  have hcond : ¬ (i < H.kNumDrumInstruments ∧ H.synth + 6 ≤ H.size ∧ H.level < H.size) :=
    fun h => by omega
  simp only [LoadPatchAt, if_neg hcond]

theorem InitAt_eq (H : Header) (x : DrumStore) :
    InitAt H x =
      ((((LoadPatchAt H 0 0 x.patch_).bind (LoadPatchAt H 1 8)).bind
        (LoadPatchAt H 2 14)).bind (LoadPatchAt H 3 12)).map
        (fun patch_ =>
          { patch_ := patch_,
            state_ := fun j => if j < H.kNumDrumInstruments then DrumState.zero
              else x.state_ j }) := by
  unfold InitAt initLoads
  simp only [List.foldlM, bind, pure]
  cases LoadPatchAt H 0 0 x.patch_ with
  | none => rfl
  | some m0 =>
    simp only [Option.bind]
    cases LoadPatchAt H 1 8 m0 with
    | none => rfl
    | some m1 =>
      simp only [Option.bind]
      cases LoadPatchAt H 2 14 m1 with
      | none => rfl
      | some m2 =>
        simp only [Option.bind]
        cases LoadPatchAt H 3 12 m2 with
        | none => rfl
        | some m3 => rfl

theorem InitAt_few_slots (H : Header) (x : DrumStore) (h : H.kNumDrumInstruments ≤ 3) :
    InitAt H x = none := by
  rw [InitAt_eq]
  cases h0 : LoadPatchAt H 0 0 x.patch_ with
  | none => rfl
  | some m0 =>
    cases h1 : LoadPatchAt H 1 8 m0 with
    | none => simp [Option.bind, h1]
    | some m1 =>
      cases h2 : LoadPatchAt H 2 14 m1 with
      | none => simp [Option.bind, h1, h2]
      | some m2 =>
        simp [Option.bind, h1, h2, LoadPatchAt_not_slot H m2 3 12 h]

/-- C19 as stated fails: the fourth `LoadPatch` call of `Init` has the instrument
index 3, which is not in 0..2; with exactly three slots that call is outside the
patch array and `Init` has no defined result. -/
theorem Init_uses_slot_three :
    (3, 12) ∈ initLoads ∧ ¬ ((3, 12) : Nat × Nat).1 ≤ 2 ∧
    ¬ (∀ c ∈ initLoads, c.1 ≤ 2 ∧ c.2 ≤ 14) ∧
    LoadPatchAt (Header.sixBytes 3) 3 12 (fun _ _ => 0) = none ∧
    InitAt (Header.sixBytes 3) ⟨fun _ _ => 0, fun _ => DrumState.zero⟩ = none :=
  ⟨by decide, by decide, by decide, LoadPatchAt_not_slot _ _ 3 12 (by decide),
    InitAt_few_slots _ _ (by decide)⟩

/-- C19, amended: every `LoadPatch` call of `Init` has an instrument index in 0..3
and a preset index in 0..14; for a header whose patch holds the stored bytes,
`Init` makes no access outside the patch array exactly when there are at least
four slots, and then all voice states are zero, the synth bytes of the patches
0, 1 and 2 are those of a bass drum, a snare and a hi-hat, and patch 3 holds a
hi-hat preset as well. -/
theorem InitAt_loads (H : Header) (x : DrumStore) (hok : H.ok) :
    (∀ c ∈ initLoads, c.1 ≤ 3 ∧ c.2 ≤ 14) ∧
    (4 ≤ H.kNumDrumInstruments →
      ∃ x1, InitAt H x = some x1 ∧
        (∀ j, j < H.kNumDrumInstruments → x1.state_ j = DrumState.zero) ∧
        x1.patch_ 0 H.synth = SYNTH_BD ∧ x1.patch_ 1 H.synth = SYNTH_SD ∧
        x1.patch_ 2 H.synth = SYNTH_HH ∧ x1.patch_ 3 H.synth = SYNTH_HH) ∧
    (H.kNumDrumInstruments ≤ 3 → InitAt H x = none) := by
  refine ⟨by decide, ?_, InitAt_few_slots H x⟩
  intro h4
  obtain ⟨m0, e0, b0⟩ := LoadPatchAt_bytes H x.patch_ 0 0 preset_bd_1 (by omega) hok rfl
  obtain ⟨m1, e1, b1⟩ := LoadPatchAt_bytes H m0 1 8 preset_sd_4 (by omega) hok rfl
  obtain ⟨m2, e2, b2⟩ := LoadPatchAt_bytes H m1 2 14 preset_hh_5 (by omega) hok rfl
  obtain ⟨m3, e3, b3⟩ := LoadPatchAt_bytes H m2 3 12 preset_hh_3 (by omega) hok rfl
  have hin : H.synth ≤ H.synth ∧ H.synth < H.synth + 6 := ⟨le_refl _, by omega⟩
  refine ⟨_, by rw [InitAt_eq, e0]; simp only [Option.bind, e1, e2, e3]; rfl, ?_, ?_, ?_, ?_, ?_⟩
  · intro j hj
    simp only [if_pos hj]
  · show m3 0 H.synth = SYNTH_BD
    rw [b3, if_neg (by omega), if_neg (by omega), b2, if_neg (by omega), if_neg (by omega),
      b1, if_neg (by omega), if_neg (by omega), b0, if_pos ⟨rfl, hin⟩, Nat.sub_self]
    rfl
  · show m3 1 H.synth = SYNTH_SD
    rw [b3, if_neg (by omega), if_neg (by omega), b2, if_neg (by omega), if_neg (by omega),
      b1, if_pos ⟨rfl, hin⟩, Nat.sub_self]
    rfl
  · show m3 2 H.synth = SYNTH_HH
    rw [b3, if_neg (by omega), if_neg (by omega), b2, if_pos ⟨rfl, hin⟩, Nat.sub_self]
    rfl
  · show m3 3 H.synth = SYNTH_HH
    rw [b3, if_pos ⟨rfl, hin⟩, Nat.sub_self]
    rfl

/-- C19 amended, at a concrete input: four slots of seven bytes. -/
theorem InitAt_loads_witness :
    (Header.sevenBytes 4).ok ∧
    ∃ x1, InitAt (Header.sevenBytes 4) ⟨fun _ _ => 9, fun _ => ⟨1, 2, 3, 4, 5, 6, 7, 8, 9⟩⟩
        = some x1 ∧
      (∀ j, j < (Header.sevenBytes 4).kNumDrumInstruments → x1.state_ j = DrumState.zero) ∧
      x1.patch_ 0 (Header.sevenBytes 4).synth = SYNTH_BD ∧
      x1.patch_ 1 (Header.sevenBytes 4).synth = SYNTH_SD ∧
      x1.patch_ 2 (Header.sevenBytes 4).synth = SYNTH_HH ∧
      x1.patch_ 3 (Header.sevenBytes 4).synth = SYNTH_HH :=
  ⟨⟨by decide, by decide⟩,
    (InitAt_loads (Header.sevenBytes 4) ⟨fun _ _ => 9, fun _ => ⟨1, 2, 3, 4, 5, 6, 7, 8, 9⟩⟩
      ⟨by decide, by decide⟩).2.1 (by decide)⟩

end Drums
